import Mathlib

/-!
Verification development for the WristClaw inbound gateway core.

The definitions below are shallow embeddings of the TypeScript sources
(`src/monitor.ts`, `src/policy.ts` / `config.ts`, `src/fetch-utils.ts`,
`src/bounded-map.ts`).  Pure functions become Lean functions; the stateful
pipeline becomes explicit state passing; JavaScript strings are modelled as
`String` / `List Char`; timestamps (`Date.now()`) are modelled as `Int`
milliseconds threaded explicitly; fallible externals (HTTP fetch, voice
transcription) are oracles passed as parameters.
-/

/- ===================================================================
   Generic string helpers (model of JS string primitives used below)
   =================================================================== -/

/-- `p` is a (case-sensitive) leading segment of `s` (JS `startsWith` on char lists). -/
def isPre : List Char → List Char → Bool
  | [], _ => true
  | _ :: _, [] => false
  | p :: ps, c :: cs => (p == c) && isPre ps cs

/-- JS `String.includes`: `pat` occurs contiguously somewhere in `s`. -/
def hasSub (s pat : List Char) : Bool :=
  match s with
  | [] => pat.isEmpty
  | _ :: rest => isPre pat s || hasSub rest pat

/-- `String.includes` lifted to Lean `String`s. -/
def hasSubStr (s pat : String) : Bool := hasSub s.toList pat.toList

/-- JS `String.startsWith` (char-list model, so that it computes by `decide`). -/
def jsStartsWith (s pat : String) : Bool := isPre pat.toList s.toList

/-- JS `String.slice(n)` / Lean `String.drop` (char-list model). -/
def jsDropChars (s : String) (n : Nat) : String := String.mk (s.toList.drop n)

/-- Lowercase a char sequence (model of JS `toLowerCase`, ASCII range). -/
def lowerL (s : List Char) : List Char := s.map Char.toLower

/- ===================================================================
   fetch-utils.ts — fetchWithRetry / isTransientError
   =================================================================== -/

/-- The slice of an HTTP `Response` that the retry logic inspects. -/
structure FetchResponse where
  status : Nat
deriving DecidableEq

/-- Errors thrown by `fetch` as classified by `isTransientError`:
a DOMException named `AbortError` (timeout cancellation), a `TypeError`
carrying a message, or any other thrown value. -/
inductive JsError where
  | abortError : JsError
  | typeError (msg : String) : JsError
  | otherError (msg : String) : JsError
deriving DecidableEq

/-- The six substrings that mark a `TypeError` as a network failure. -/
def transientSubs : List (List Char) :=
  ["fetch".toList, "network".toList, "econnr".toList,
   "etimedout".toList, "enotfound".toList, "socket".toList]

/-- `isTransientError` from fetch-utils.ts: AbortError is transient; a
`TypeError` is transient iff its lowercased message names a network keyword;
everything else is not. -/
def isTransientError : JsError → Bool
  | .abortError => true
  | .typeError msg => transientSubs.any (fun p => hasSub (lowerL msg.toList) p)
  | .otherError _ => false

/-- `TRANSIENT_STATUSES` from fetch-utils.ts. -/
def TRANSIENT_STATUSES : List Nat := [429, 502, 503, 504]

/-- `defaultRetryOn` from fetch-utils.ts. -/
def defaultRetryOn (status : Nat) : Bool := TRANSIENT_STATUSES.contains status

/-- The attempt loop of `fetchWithRetry`.  The `oracle` gives the outcome of
each numbered attempt (a response or a thrown error); `remaining` counts how
many further attempts are still allowed (`attempt < maxAttempts` in the
source is `remaining > 0` here).  Returns the final outcome together with
the number of fetch attempts performed.  Backoff delays (Retry-After /
exponential) do not influence the outcome and are not modelled. -/
def fetchGo (oracle : Nat → Except JsError FetchResponse) (retryOn : Nat → Bool) :
    Nat → Nat → Except JsError FetchResponse × Nat
  | attempt, 0 => (oracle attempt, 1)
  | attempt, remaining + 1 =>
    match oracle attempt with
    | .ok res =>
      if retryOn res.status then
        let r := fetchGo oracle retryOn (attempt + 1) remaining
        (r.1, r.2 + 1)
      else (.ok res, 1)
    | .error e =>
      if isTransientError e then
        let r := fetchGo oracle retryOn (attempt + 1) remaining
        (r.1, r.2 + 1)
      else (.error e, 1)

/-- `fetchWithRetry(url, {retries, retryOn})`: `maxAttempts = retries + 1`,
attempts numbered from 1. -/
def fetchWithRetry (oracle : Nat → Except JsError FetchResponse)
    (retryOn : Nat → Bool) (retries : Nat) : Except JsError FetchResponse × Nat :=
  fetchGo oracle retryOn 1 retries

/-- Attempt `i` leads to a further attempt: either a response whose status is
in the retry set, or a transient thrown error. -/
def attemptRetriable (oracle : Nat → Except JsError FetchResponse)
    (retryOn : Nat → Bool) (i : Nat) : Prop :=
  (∃ r, oracle i = .ok r ∧ retryOn r.status = true) ∨
  (∃ e, oracle i = .error e ∧ isTransientError e = true)

/- ===================================================================
   monitor.ts connect — ws:// blocking of remote hosts
   =================================================================== -/

/-- `account.serverUrl.replace(/^http/, "ws") + "/v1/ws"` (monitor.ts `connect`).
The anchored regex rewrites a leading `http` to `ws` (so `https` becomes
`wss`) and leaves other strings unchanged. -/
def deriveWsUrl (serverUrl : String) : String :=
  (if jsStartsWith serverUrl "http" then "ws" ++ jsDropChars serverUrl 4 else serverUrl) ++ "/v1/ws"

/-- The blocking test in `connect`:
`wsUrl.startsWith("ws://") && !/localhost|127\.0\.0\.1|\[::1\]/.test(wsUrl)`.
Note the regex is a plain substring test over the whole URL, not a host
comparison. -/
def connectBlocked (serverUrl : String) : Bool :=
  let wsUrl := deriveWsUrl serverUrl
  jsStartsWith wsUrl "ws://" &&
    !(hasSubStr wsUrl "localhost" || hasSubStr wsUrl "127.0.0.1" || hasSubStr wsUrl "[::1]")

/-- Outcome of `connect` as far as socket creation is concerned: `none` when
the blocking error is logged and the routine returns, otherwise the URL a
`WebSocket` is created for. -/
def connectOutcome (serverUrl : String) : Option String :=
  if connectBlocked serverUrl then none else some (deriveWsUrl serverUrl)

/-- Everything after the first `://` of a URL (spec-side helper). -/
def afterSchemeSep : List Char → List Char
  | [] => []
  | c :: rest => if isPre "://".toList (c :: rest) then rest.drop 2 else afterSchemeSep rest

/-- The host of a URL as the spec's words intend it: the authority text
after `://` up to the first `/`, `:`, `?` or `#`, with `[...]` bracket hosts
(such as `[::1]`) kept whole.  This definition follows the specification's
wording, for comparison against the source's substring test. -/
def specUrlHost (url : String) : String :=
  let rest := afterSchemeSep url.toList
  match rest with
  | '[' :: _ =>
    String.mk ((rest.takeWhile (fun c => c ≠ ']')) ++ [']'])
  | _ =>
    String.mk (rest.takeWhile (fun c => c ≠ '/' && c ≠ ':' && c ≠ '?' && c ≠ '#'))

/- ===================================================================
   policy.ts — detectAndStripMention
   =================================================================== -/

/-- JS regex `\s` whitespace class (ASCII range, as used by the claims). -/
def isJsSpace (c : Char) : Bool :=
  c == ' ' || c == '\t' || c == '\n' || c == '\r' || c == Char.ofNat 11 || c == Char.ofNat 12

/-- Number of characters of `s` that lowercase to `'@'` (i.e. the `'@'`s). -/
def atCount (s : List Char) : Nat :=
  (s.filter (fun c => Char.toLower c == '@')).length

/-- The scanning loop of one `text.replace(new RegExp("@"+name+"\\s*","gi"), "")`
pass: left-to-right, non-rescanning removal of every case-insensitive
occurrence of `@<name>` together with the greedy whitespace run following it.
`name` is treated as a literal pattern (the configured mention names carry no
regex metacharacters).  `fuel` only drives structural recursion; it is
adequate whenever `s.length ≤ fuel` since every step consumes a character. -/
def stripGo (name : List Char) : Nat → List Char → List Char
  | 0, s => s
  | fuel + 1, s =>
    match s with
    | [] => []
    | c :: rest =>
      if isPre (lowerL ('@' :: name)) (lowerL (c :: rest)) then
        stripGo name fuel (((c :: rest).drop (name.length + 1)).dropWhile isJsSpace)
      else
        c :: stripGo name fuel rest

/-- One global, case-insensitive replace of `@<name>` + trailing whitespace. -/
def stripPass (name s : List Char) : List Char := stripGo name s.length s

/-- JS `String.trim` on the char-list model. -/
def jsTrim (s : List Char) : List Char :=
  ((s.dropWhile isJsSpace).reverse.dropWhile isJsSpace).reverse

/-- `detectAndStripMention(text, mentionNames)` from policy.ts: `mentioned`
iff the lowercased text contains `@<name>` for some name; when mentioned,
every name is stripped by one replace pass each, in list order, and the
result is trimmed. -/
def detectAndStripMention (text : List Char) (mentionNames : List (List Char)) :
    Bool × List Char :=
  if mentionNames.any (fun name => hasSub (lowerL text) ('@' :: lowerL name)) then
    (true, jsTrim (mentionNames.foldl (fun s name => stripPass name s) text))
  else (false, text)

/- ===================================================================
   SenderRateLimiter (policy.ts) / isRateLimited (monitor.ts)
   =================================================================== -/

/-- `RATE_LIMIT_MAX` from monitor.ts (= the `SenderRateLimiter` default). -/
def RATE_LIMIT_MAX : Nat := 10

/-- `RATE_LIMIT_WINDOW_MS` from monitor.ts (= the limiter default). -/
def RATE_LIMIT_WINDOW_MS : Int := 60000

/-- `senderTimestamps`: per-sender timestamp lists, in append order. -/
def RLState := String → List Int

/-- Fresh limiter (`new Map()`). -/
def rlEmpty : RLState := fun _ => []

/-- One `isLimited(senderId)` call at time `now` (`SenderRateLimiter` with
parameters `maxN`, `windowMs`; `isRateLimited` in monitor.ts is the instance
with the defaults): trim the sender's list to entries within the window;
return `true` (limited — nothing appended) when the fresh count is already
`≥ maxN`, else append `now` and return `false`. -/
def isLimited (maxN : Nat) (windowMs : Int) (st : RLState) (senderId : String) (now : Int) :
    Bool × RLState :=
  let fresh := (st senderId).filter (fun t => decide (now - t < windowMs))
  if maxN ≤ fresh.length then
    (true, fun s => if s = senderId then fresh else st s)
  else
    (false, fun s => if s = senderId then fresh ++ [now] else st s)

/-- Run a sequence of `isLimited` calls, pairing each call with its result. -/
def runRL (maxN : Nat) (windowMs : Int) : RLState → List (String × Int) →
    RLState × List ((String × Int) × Bool)
  | st, [] => (st, [])
  | st, c :: rest =>
    let r := isLimited maxN windowMs st c.1 c.2
    let r2 := runRL maxN windowMs r.2 rest
    (r2.1, (c, r.1) :: r2.2)

/-- The times of the calls by sender `s` that were admitted (returned `false`),
in call order. -/
def admittedTimes (s : String) (results : List ((String × Int) × Bool)) : List Int :=
  (results.filter (fun r => r.1.1 == s && r.2 == false)).map (fun r => r.1.2)

/- ===================================================================
   monitor.ts — activeDispatches concurrency cap
   =================================================================== -/

/-- `MAX_CONCURRENT` from monitor.ts. -/
def MAX_CONCURRENT : Nat := 3

/-- The scheduler-visible actions that touch `activeDispatches`: the four
dispatch-starting paths (live `message:new`, media-group flush, catch-up,
and the legacy `voice:transcribed` path), plus pipeline completion.  Every
starting path runs the identical guard
`if (activeDispatches >= MAX_CONCURRENT) { drop } else { activeDispatches++; … }`;
completion is the `.finally(() => { activeDispatches--; })`. -/
inductive DispatchAction where
  | liveMessage : DispatchAction
  | mediaGroupFlush : DispatchAction
  | catchUp : DispatchAction
  | voiceTranscribed : DispatchAction
  | finish : DispatchAction
deriving DecidableEq

/-- The shared guard + increment of every dispatch-starting path. -/
def tryStartDispatch (active : Nat) : Nat :=
  if MAX_CONCURRENT ≤ active then active else active + 1

/-- Completion decrement. -/
def finishDispatch (active : Nat) : Nat := active - 1

def concStep (active : Nat) : DispatchAction → Nat
  | .liveMessage => tryStartDispatch active
  | .mediaGroupFlush => tryStartDispatch active
  | .catchUp => tryStartDispatch active
  | .voiceTranscribed => tryStartDispatch active
  | .finish => finishDispatch active

/-- The counter after an interleaving of starts and completions. -/
def runConc (active : Nat) (trace : List DispatchAction) : Nat :=
  trace.foldl concStep active

/-- A trace is valid when every completion corresponds to a dispatch still
in flight (the `finally` of a pipeline run that was actually started). -/
def concValidFrom (active : Nat) : List DispatchAction → Bool
  | [] => true
  | a :: rest =>
    (decide (a ≠ DispatchAction.finish) || decide (0 < active)) &&
      concValidFrom (concStep active a) rest

/- ===================================================================
   monitor.ts processMessage — the inbound message pipeline
   =================================================================== -/

/-- `VIA_TAG` (constants.ts): the `via` value marking the bot's own sends. -/
def VIA_TAG : String := "openclaw"

/-- `isEcho` from policy.ts; monitor.ts lines 293–295 inline the same two
tests: nested `via == "openclaw"`, or `botUserId` non-empty and the sender
is the bot. -/
def isEcho (via : Option String) (senderId botUserId : String) : Bool :=
  (via == some VIA_TAG) || (botUserId != "" && senderId == botUserId)

/-- `CROSS_ACCOUNT_DEDUP_CAP` from monitor.ts. -/
def CROSS_ACCOUNT_DEDUP_CAP : Nat := 2000

/-- `crossAccountDedup` from monitor.ts: `true` on first claim (the id is
inserted with the current time); `false` if already claimed.  After an
insert that leaves the map above the cap, entries older than five minutes
are pruned.  The map is a key–timestamp list, newest first (iteration order
is irrelevant to the time-based prune). -/
def crossAccountDedup (msgId : String) (now : Int) (m : List (String × Int)) :
    Bool × List (String × Int) :=
  if m.any (fun p => p.1 == msgId) then (false, m)
  else
    let m1 := (msgId, now) :: m
    if CROSS_ACCOUNT_DEDUP_CAP < m1.length then
      (true, m1.filter (fun p => !decide (p.2 < now - 300000)))
    else (true, m1)

/-- `DEDUP_CAP` from monitor.ts. -/
def DEDUP_CAP : Nat := 1000

/-- `markProcessed` from monitor.ts: per-account dedup set, `true` on first
sight.  The set is kept newest-first here; when an insert pushes the size
above the cap the oldest fifth (`DEDUP_CAP * 0.2 = 200` entries, the tail)
is evicted. -/
def markProcessed (msgId : String) (l : List String) : Bool × List String :=
  if l.any (fun x => x == msgId) then (false, l)
  else
    let l1 := msgId :: l
    if DEDUP_CAP < l1.length then (true, l1.take (l1.length - 200))
    else (true, l1)

/-- Nested message content (`payload.payload` of a `message:new`). -/
structure WSMessageContent where
  content_type : Option String := none
  text : Option String := none
  media_url : Option String := none
  via : Option String := none
deriving DecidableEq, Repr

/-- Reply context of a `message:new`. -/
structure WSReplyTo where
  message_id : Option String := none
  author_id : Option String := none
  text_preview : Option String := none
deriving DecidableEq, Repr

/-- `message:new` payload (created_at as epoch milliseconds). -/
structure WSMessagePayload where
  pair_id : Option String := none
  author_id : Option String := none
  sender_name : Option String := none
  channel_id : Option String := none
  message_id : Option String := none
  created_at : Option Int := none
  media_url : Option String := none
  reply_to : Option WSReplyTo := none
  payload : Option WSMessageContent := none
deriving DecidableEq, Repr

/-- The per-account configuration slice `processMessage` reads. -/
structure AccountCfg where
  accountId : String := "default"
  ownerUserId : Option String := none
  dmPolicy : Option String := none
  allowFrom : Option (List String) := none
  groupPolicy : Option String := none
  groupAllowFrom : Option (List String) := none
  mentionNames : Option (List String) := none
  secretaryAgentId : Option String := none
  historyLimit : Nat := 20
deriving DecidableEq, Repr

/-- Per-monitor constants: the account, the bot identity fetched from
`/v1/me`, and the agent id the host's `resolveAgentRoute` capability
returns (an external collaborator of the core). -/
structure MonitorCtx where
  account : AccountCfg
  botUserId : String := ""
  botDisplayName : String := ""
  defaultAgentId : String := "main"
deriving DecidableEq, Repr

/-- One group-history record (sender label, body, timestamp, message id). -/
structure HEntry where
  sender : String
  body : String
  timestamp : Int
  messageId : Option String
deriving DecidableEq, Repr

/-- The mutable state `processMessage` reads and writes: the process-wide
cross-account map, and per account the `processedMessageIds` dedup set, the
`senderTimestamps` rate-limit map and the `groupHistories` map. -/
structure PipelineState where
  cross : List (String × Int)
  processed : String → List String
  senders : String → RLState
  histories : String → String → List HEntry

/-- Fresh process state. -/
def initialState : PipelineState :=
  { cross := [], processed := fun _ => [], senders := fun _ => rlEmpty,
    histories := fun _ _ => [] }

/-- One inbound `message:new` as handed to `processMessage`: the payload,
the resolved channel id, whether the channel is a group, the clock reading
at processing time, the text a voice-transcription wait would resolve to
("" models the 15 s timeout), and the media-group extra URLs. -/
structure InboundItem where
  payload : Option WSMessagePayload
  channelId : String
  isGroupChannel : Bool := false
  now : Int := 0
  transcription : String := ""
  extraMediaUrls : List String := []
deriving DecidableEq, Repr

/-- The dispatch handed to the host (`finalizeInboundContext` feeding
`dispatchReplyWithBufferedBlockDispatcher`), restricted to the fields the
claims inspect.  Media download (an external host capability with a
10 MiB cap) and envelope/history formatting do not affect these fields and
are elided. -/
structure Dispatch where
  sessionKey : String
  agentId : String
  accountId : String
  bodyForAgent : String
  commandAuthorized : Bool
  chatType : String
  messageId : Option String
  channelId : String
deriving DecidableEq, Repr

/-- `Boolean(account.ownerUserId && senderId === account.ownerUserId)`. -/
def isOwnerSender (cfg : AccountCfg) (senderId : String) : Bool :=
  match cfg.ownerUserId with
  | some o => o != "" && senderId == o
  | none => false

/-- JS `String.trim` on `String`. -/
def jsTrimStr (s : String) : String := String.mk (jsTrim s.toList)

/-- `text?.trim() ?? ""` (and the falsy test of `text?.trim()`). -/
def optTrim (o : Option String) : String :=
  match o with
  | some t => jsTrimStr t
  | none => ""

/-- JS `toLowerCase` on `String`. -/
def jsToLowerStr (s : String) : String := String.mk (lowerL s.toList)

/-- The session key built in `processMessage`: fixed literal `wristclaw`
(not the agent id), account segment only for non-default accounts,
`direct` exactly for the owner. -/
def routeSessionKey (accountId : String) (isOwner : Bool) (channelId : String) : String :=
  if accountId == "default" then
    "agent:wristclaw:" ++ (if isOwner then "direct" else "group") ++ ":ch:" ++ channelId
  else
    "agent:wristclaw:" ++ accountId ++ ":" ++ (if isOwner then "direct" else "group")
      ++ ":ch:" ++ channelId

/-- The mention pool: configured `mentionNames` (non-empty strings,
lowercased), the bot display name (if known and not already present), and
the literal `"all"`. -/
def buildMentionNames (cfg : AccountCfg) (botDisplayName : String) : List String :=
  let base := match cfg.mentionNames with
    | some l => (l.filter (fun n => n != "")).map jsToLowerStr
    | none => []
  let withBot :=
    if botDisplayName != "" then
      let bn := jsToLowerStr botDisplayName
      if base.contains bn then base else base ++ [bn]
    else base
  withBot ++ ["all"]

/-- `replyQuoteText.slice(0, 100).replace(/[\x00-\x08\x0b\x0c\x0e-\x1f]/g, "")`. -/
def sanitizePreview (s : String) : String :=
  String.mk ((s.toList.take 100).filter
    (fun c => !(c.toNat ≤ 8 || c.toNat == 11 || c.toNat == 12
      || (14 ≤ c.toNat && c.toNat ≤ 31))))

/-- Append one entry to a group's history, bounded by the account history
limit. Modelled from the spec: `recordPendingHistoryEntryIfEnabled` is a
host-SDK helper that "trivially wraps the group-history structure"
(§6): a bounded ordered sequence of capacity `limit` (§3). -/
def recordHistory (hist : String → List HEntry) (key : String) (limit : Nat)
    (entry : HEntry) : String → List HEntry :=
  if key == "" then hist
  else fun ch =>
    if ch = key then
      let h := hist key ++ [entry]
      if limit < h.length then h.drop (h.length - limit) else h
    else hist ch

/-- The dispatch record for a message that passed every gate. -/
def mkDispatch (ctx : MonitorCtx) (raw : WSMessagePayload) (item : InboundItem)
    (rawBody : String) : Dispatch :=
  let senderId := raw.author_id.getD ""
  let isOwner := isOwnerSender ctx.account senderId
  { sessionKey := routeSessionKey ctx.account.accountId isOwner item.channelId
    agentId := if isOwner then ctx.defaultAgentId
               else ctx.account.secretaryAgentId.getD ctx.defaultAgentId
    accountId := ctx.account.accountId
    bodyForAgent := rawBody
    commandAuthorized := isOwner
    chatType := if isOwner then "direct" else "group"
    messageId := raw.message_id
    channelId := item.channelId }

/-- Reply-context prefix plus the history clear of the `finally` block, then
the dispatch itself (steps 10–15 of the pipeline for a message that reached
dispatch). -/
def finishDispatchBody (ctx : MonitorCtx) (raw : WSMessagePayload) (item : InboundItem)
    (senders : RLState) (hist : String → List HEntry) (body0 : String) :
    RLState × (String → List HEntry) × Option Dispatch :=
  let replyQuote := (raw.reply_to.bind (fun r => r.text_preview)).getD ""
  let body :=
    if replyQuote != "" then
      "[回覆 (user-quoted-content)：「" ++ sanitizePreview replyQuote ++ "」]\n" ++ body0
    else body0
  let hist1 :=
    if item.isGroupChannel && item.channelId != "" then
      fun ch => if ch = item.channelId then [] else hist ch
    else hist
  (senders, hist1, some (mkDispatch ctx raw item body))

/-- The access policy gate of step 5: the group branch enforces group
policy and group allowlist, the DM branch enforces DM policy and DM
allowlist; the owner bypasses the allowlists. -/
def accessGateOk (cfg : AccountCfg) (isGroup : Bool) (senderId : String) : Bool :=
  let isOwner := isOwnerSender cfg senderId
  if isGroup then
    if cfg.groupPolicy.getD "mention" == "disabled" then false
    else
      match cfg.groupAllowFrom with
      | some l =>
        if l.length != 0 then
          if !(l.any (fun id => jsTrimStr id == "*")) && !isOwner then
            l.any (fun id => id == senderId)
          else true
        else true
      | none => true
  else
    if cfg.dmPolicy.getD "open" == "disabled" && !isOwner then false
    else if cfg.dmPolicy.getD "open" == "allowlist" && !isOwner then
      match cfg.allowFrom with
      | some l =>
        if l.length == 0 then false
        else l.any (fun id => jsTrimStr id == "*") || l.any (fun id => id == senderId)
      | none => false
    else true

/-- Step 7, body building by content type.  For `voice` with empty text the
transcription wait's result is consulted when a message id exists; the
fallback literal is used when that too is empty. -/
def buildBody (contentType : String) (text : Option String) (msgId : Option String)
    (transcription : String) (extraCount : Nat) : String :=
  if contentType == "text" then optTrim text
  else if contentType == "voice" then
    let t0 := optTrim text
    let t :=
      if t0 == "" then
        match msgId with
        | some _ => jsTrimStr transcription
        | none => t0
      else t0
    if t == "" then "🎤 語音訊息" else t
  else if contentType == "image" then
    let imageCount := 1 + extraCount
    if optTrim text != "" then optTrim text
    else if 1 < imageCount then "📷 " ++ toString imageCount ++ " 張圖片"
    else "📷 圖片"
  else if contentType == "interactive" then
    if optTrim text != "" then optTrim text else "📋 互動訊息"
  else optTrim text

/-- The pipeline stages after echo and dedup (access gate, rate limit, body
building, group @mention gate, dispatch), acting on the per-account rate
and history state.  The cross-account and per-account dedup structures are
untouched from here on, which the return type makes evident. -/
def processRest (ctx : MonitorCtx) (senders : RLState) (hist : String → List HEntry)
    (raw : WSMessagePayload) (item : InboundItem) :
    RLState × (String → List HEntry) × Option Dispatch :=
  let cfg := ctx.account
  let contentType := (raw.payload.bind (fun n => n.content_type)).getD "text"
  let text := raw.payload.bind (fun n => n.text)
  let senderId := raw.author_id.getD ""
  let senderName := raw.sender_name.getD ""
  if !accessGateOk cfg item.isGroupChannel senderId then (senders, hist, none)
  else
    -- === Per-sender rate limit (skipped for empty senderId) ===
    let rl :=
      if senderId != "" then
        isLimited RATE_LIMIT_MAX RATE_LIMIT_WINDOW_MS senders senderId item.now
      else (false, senders)
    if rl.1 then (rl.2, hist, none)
    else
      let rawBody0 :=
        buildBody contentType text raw.message_id item.transcription
          item.extraMediaUrls.length
      if rawBody0 == "" then (rl.2, hist, none)
      else
        -- === Group history + @mention gate ===
        if item.isGroupChannel && cfg.groupPolicy.getD "mention" == "mention" then
          let names := buildMentionNames cfg ctx.botDisplayName
          let mentioned := names.any (fun n => hasSub (lowerL rawBody0.toList) ('@' :: n.toList))
          if !mentioned then
            let senderLabel :=
              if senderName != "" then senderName
              else "user:" ++ String.mk (senderId.toList.take 8)
            let entry : HEntry :=
              { sender := senderLabel, body := rawBody0,
                timestamp := raw.created_at.getD item.now, messageId := raw.message_id }
            (rl.2, recordHistory hist item.channelId cfg.historyLimit entry, none)
          else
            let stripped := jsTrimStr
              (names.foldl (fun b n => String.mk (stripPass n.toList b.toList)) rawBody0)
            if stripped == "" then (rl.2, hist, none)
            else finishDispatchBody ctx raw item rl.2 hist stripped
        else finishDispatchBody ctx raw item rl.2 hist rawBody0

/-- `processMessage` (monitor.ts): parse, echo suppression, cross-account
claim, per-account dedup claim, then the remaining stages.  Returns the
updated state and the dispatch to the agent, if any. -/
def processMessage (ctx : MonitorCtx) (st : PipelineState) (item : InboundItem) :
    PipelineState × Option Dispatch :=
  match item.payload with
  | none => (st, none)
  | some raw =>
    let via := raw.payload.bind (fun n => n.via)
    let senderId := raw.author_id.getD ""
    if isEcho via senderId ctx.botUserId then (st, none)
    else
      let acct := ctx.account.accountId
      let afterDedup :=
        fun (st2 : PipelineState) =>
          let r := processRest ctx (st2.senders acct) (st2.histories acct) raw item
          ({ st2 with
              senders := fun a => if a = acct then r.1 else st2.senders a,
              histories := fun a => if a = acct then r.2.1 else st2.histories a },
           r.2.2)
      match raw.message_id with
      | some msgId =>
        let c := crossAccountDedup msgId item.now st.cross
        let st1 := { st with cross := c.2 }
        if !c.1 then (st1, none)
        else
          let p := markProcessed msgId (st1.processed acct)
          let st2 := { st1 with
            processed := fun a => if a = acct then p.2 else st1.processed a }
          if !p.1 then (st2, none)
          else afterDedup st2
      | none => afterDedup st

/-- Fold the pipeline over a sequence of inbound events, each tagged with
its account monitor's context; the cross-account map is shared. -/
def runPipeline (st : PipelineState) :
    List (MonitorCtx × InboundItem) →
    PipelineState × List ((MonitorCtx × InboundItem) × Option Dispatch)
  | [] => (st, [])
  | x :: rest =>
    let r := processMessage x.1 st x.2
    let r2 := runPipeline r.1 rest
    (r2.1, (x, r.2) :: r2.2)

/-- The `message_id` carried by an inbound item. -/
def itemMsgId (item : InboundItem) : Option String :=
  item.payload.bind (fun r => r.message_id)

/-- The nested `via` carried by an inbound item. -/
def itemVia (item : InboundItem) : Option String :=
  item.payload.bind (fun r => r.payload.bind (fun n => n.via))

/-- The sender (`author_id ?? ""`) of an inbound item. -/
def itemSenderId (item : InboundItem) : String :=
  (item.payload.bind (fun r => r.author_id)).getD ""

/-- Keys of the cross-account dedup map. -/
def crossKeys (st : PipelineState) : List String := st.cross.map Prod.fst

/-- Example monitor: default account, owner `owner-1`, default policies. -/
def ownerSeedCtx : MonitorCtx :=
  { account := { accountId := "default", ownerUserId := some "owner-1" },
    botUserId := "bot-9", defaultAgentId := "dev" }

/-- Seed scenario 1 of the spec: owner DM `{channelId:"ch-1",
authorId:"owner-1", payload:{content_type:"text", text:"hi"}}`. -/
def ownerSeedItem : InboundItem :=
  { payload := some { author_id := some "owner-1"
                      channel_id := some "ch-1"
                      message_id := some "m1"
                      payload := some { content_type := some "text", text := some "hi" } },
    channelId := "ch-1" }

/-- The dispatch the owner seed produces. -/
def ownerSeedDispatch : Dispatch :=
  { sessionKey := "agent:wristclaw:direct:ch:ch-1", agentId := "dev",
    accountId := "default", bodyForAgent := "hi", commandAuthorized := true,
    chatType := "direct", messageId := some "m1", channelId := "ch-1" }

/-- Example monitor for visitor traffic: default account, open DM policy. -/
def visitorCtx : MonitorCtx :=
  { account := { accountId := "default" }, botUserId := "bot-9", defaultAgentId := "dev" }

/-- A `message:new` that carries no `message_id`. -/
def noIdSeedItem : InboundItem :=
  { payload := some { author_id := some "u7"
                      channel_id := some "ch-1"
                      payload := some { content_type := some "text", text := some "hello" } },
    channelId := "ch-1" }

/-- A voice message whose `text` is empty and whose transcription wait also
yields empty text. -/
def voiceSeedItem : InboundItem :=
  { payload := some { author_id := some "u7"
                      channel_id := some "ch-1"
                      message_id := some "v1"
                      payload := some { content_type := some "voice", text := some "" } },
    channelId := "ch-1", transcription := "" }

/-- Cross-map well-formedness relative to a universe `S` of possible ids. -/
def CrossInv (st : PipelineState) (S : List String) : Prop :=
  (crossKeys st).Nodup ∧ crossKeys st ⊆ S

/-- The message ids carried by a trace of inbound events. -/
def itemsMsgIds (items : List (MonitorCtx × InboundItem)) : List String :=
  items.filterMap (fun x => itemMsgId x.2)

/-- Dispatches in a run's output carrying message id `m`. -/
def countDisp (m : String)
    (results : List ((MonitorCtx × InboundItem) × Option Dispatch)) : Nat :=
  ((results.filterMap (fun r => r.2)).filter (fun d => d.messageId == some m)).length

/-- Dispatches of account `a` carrying message id `m`. -/
def countDispAcct (a m : String)
    (results : List ((MonitorCtx × InboundItem) × Option Dispatch)) : Nat :=
  (((results.filter (fun r => r.1.1.account.accountId == a)).filterMap
      (fun r => r.2)).filter (fun d => d.messageId == some m)).length

/-- Unary message ids for the eviction counterexample: `uid i` is `i`
copies of `a`. -/
def uid (i : Nat) : String := String.mk (List.replicate i 'a')

/-- The payload of a plain DM text message. -/
def dmRaw (id sender : String) : WSMessagePayload :=
  { author_id := some sender, channel_id := some "ch-1", message_id := some id,
    payload := some { content_type := some "text", text := some "hi" } }

/-- A plain DM text `message:new` arriving at time `now`. -/
def dmItem (id sender : String) (now : Int) : InboundItem :=
  { payload := some (dmRaw id sender), channelId := "ch-1", now := now }

/-- A second monitor in the same process: account `acct2`, open DM policy. -/
def crossCtx : MonitorCtx :=
  { account := { accountId := "acct2" }, botUserId := "bot-9", defaultAgentId := "dev" }

/-- Filler event `i` of the eviction trace: a fresh message id at time 300001. -/
def fillerItem (i : Nat) : InboundItem := dmItem (uid (i+1)) "filler" 300001

/-- The first `n` filler events, on the default account. -/
def fillerEvents (n : Nat) : List (MonitorCtx × InboundItem) :=
  (List.range n).map (fun i => (visitorCtx, fillerItem i))

/-- The first claim of message id `"z"`, at time 0. -/
def zItem0 : InboundItem := dmItem "z" "alice" 0

/-- The repeated event with message id `"z"`, at time 300001 on account `acct2`. -/
def zItem1 : InboundItem := dmItem "z" "alice" 300001

/-- The eviction trace: claim `"z"`, then 2000 fresh ids (overflowing the
cross-account map, whose prune discards the five-minute-old `"z"` entry),
then `"z"` again from a second account. -/
def cexTrace : List (MonitorCtx × InboundItem) :=
  (visitorCtx, zItem0) :: (fillerEvents 2000 ++ [(crossCtx, zItem1)])

/-- Pipeline state after the initial `"z"` event. -/
def st1z : PipelineState := (processMessage visitorCtx initialState zItem0).1

/-- Pipeline state after the initial `"z"` event and `n` filler events. -/
def cexSt : Nat → PipelineState
  | 0 => st1z
  | n + 1 => (processMessage visitorCtx (cexSt n) (fillerItem n)).1

/-- The cross-account entries contributed by the first `n` fillers, newest
first. -/
def fillerCross (n : Nat) : List (String × Int) :=
  (List.range n).reverse.map (fun i => (uid (i+1), (300001 : Int)))

/-- Invariant along the filler phase (valid while no prune has fired,
`n ≤ 1999`): the exact cross map, a weak bound on the default account's
processed set, and the untouched state of account `acct2`. -/
def CexInv (n : Nat) : Prop :=
  (cexSt n).cross = fillerCross n ++ [("z", (0 : Int))]
  ∧ (∀ x ∈ (cexSt n).processed "default", x = "z" ∨ ∃ i, 1 ≤ i ∧ i ≤ n ∧ x = uid i)
  ∧ (cexSt n).processed "acct2" = []
  ∧ (cexSt n).senders "acct2" = rlEmpty

/- ===================================================================
   Theorems
   =================================================================== -/

/- ===================================================================
   Lemmas about fetchGo
   =================================================================== -/

theorem fetchGo_used_le (oracle : Nat → Except JsError FetchResponse)
    (retryOn : Nat → Bool) :
    ∀ remaining attempt, (fetchGo oracle retryOn attempt remaining).2 ≤ remaining + 1 := by
  intro remaining
  induction remaining with
  | zero => intro attempt; simp [fetchGo]
  | succ n ih =>
    intro attempt
    simp only [fetchGo]
    cases h : oracle attempt with
    | ok res =>
      by_cases hr : retryOn res.status = true
      · simp only [hr, if_pos]
        have := ih (attempt + 1)
        omega
      · simp only [hr]
        simp
    | error e =>
      by_cases ht : isTransientError e = true
      · simp only [ht, if_pos]
        have := ih (attempt + 1)
        omega
      · simp only [ht]
        simp

theorem fetchGo_all_ok (oracle : Nat → Except JsError FetchResponse)
    (retryOn : Nat → Bool) :
    ∀ remaining attempt,
      (∀ i, attempt ≤ i → i ≤ attempt + remaining →
        ∃ r, oracle i = .ok r ∧ retryOn r.status = true) →
      ∀ r, oracle (attempt + remaining) = .ok r →
      fetchGo oracle retryOn attempt remaining = (.ok r, remaining + 1) := by
  intro remaining
  induction remaining with
  | zero =>
    intro attempt _ r hlast
    simp only [Nat.add_zero] at hlast
    simp [fetchGo, hlast]
  | succ n ih =>
    intro attempt hall r hlast
    obtain ⟨r₀, hr₀, hret⟩ := hall attempt (Nat.le_refl _) (Nat.le_add_right _ _)
    simp only [fetchGo, hr₀, hret, if_pos]
    have hrec := ih (attempt + 1)
      (fun i h1 h2 => hall i (Nat.le_of_succ_le h1) (by omega))
      r (by rw [show attempt + 1 + n = attempt + (n + 1) by omega]; exact hlast)
    rw [hrec]

theorem fetchGo_all_err (oracle : Nat → Except JsError FetchResponse)
    (retryOn : Nat → Bool) :
    ∀ remaining attempt,
      (∀ i, attempt ≤ i → i ≤ attempt + remaining →
        ∃ e, oracle i = .error e ∧ isTransientError e = true) →
      ∀ e, oracle (attempt + remaining) = .error e →
      fetchGo oracle retryOn attempt remaining = (.error e, remaining + 1) := by
  intro remaining
  induction remaining with
  | zero =>
    intro attempt _ e hlast
    simp only [Nat.add_zero] at hlast
    simp [fetchGo, hlast]
  | succ n ih =>
    intro attempt hall e hlast
    obtain ⟨e₀, he₀, htr⟩ := hall attempt (Nat.le_refl _) (Nat.le_add_right _ _)
    simp only [fetchGo, he₀, htr, if_pos]
    have hrec := ih (attempt + 1)
      (fun i h1 h2 => hall i (Nat.le_of_succ_le h1) (by omega))
      e (by rw [show attempt + 1 + n = attempt + (n + 1) by omega]; exact hlast)
    rw [hrec]

theorem fetchGo_nontransient (oracle : Nat → Except JsError FetchResponse)
    (retryOn : Nat → Bool) :
    ∀ remaining attempt k e, attempt ≤ k → k ≤ attempt + remaining →
      (∀ i, attempt ≤ i → i < k → attemptRetriable oracle retryOn i) →
      oracle k = .error e → isTransientError e = false →
      fetchGo oracle retryOn attempt remaining = (.error e, k - attempt + 1) := by
  intro remaining
  induction remaining with
  | zero =>
    intro attempt k e h1 h2 _ herr htr
    have hk : k = attempt := by omega
    subst hk
    simp [fetchGo, herr, Nat.sub_self]
  | succ n ih =>
    intro attempt k e h1 h2 hbefore herr htr
    rcases Nat.eq_or_lt_of_le h1 with heq | hlt
    · subst heq
      simp [fetchGo, herr, htr, Nat.sub_self]
    · rcases hbefore attempt (Nat.le_refl _) hlt with ⟨r₀, hr₀, hret⟩ | ⟨e₀, he₀, htr₀⟩
      · simp only [fetchGo, hr₀, hret, if_pos]
        have hrec := ih (attempt + 1) k e hlt (by omega)
          (fun i hi1 hi2 => hbefore i (Nat.le_of_succ_le hi1) hi2) herr htr
        rw [hrec]
        have : k - attempt = (k - (attempt + 1)) + 1 := by omega
        rw [this]
      · simp only [fetchGo, he₀, htr₀, if_pos]
        have hrec := ih (attempt + 1) k e hlt (by omega)
          (fun i hi1 hi2 => hbefore i (Nat.le_of_succ_le hi1) hi2) herr htr
        rw [hrec]
        have : k - attempt = (k - (attempt + 1)) + 1 := by omega
        rw [this]

/-- C8: `fetchWithRetry` performs at most `retries + 1` attempts; when every
attempt yields a response with a retriable status, the last response is
returned rather than an error thrown; when the final attempt fails with a
transient error (all earlier attempts having been retriable), the last error
is rethrown; and a non-transient error at any attempt is rethrown
immediately, with no further attempt. -/
theorem C8_fetchWithRetry_contract (oracle : Nat → Except JsError FetchResponse)
    (retryOn : Nat → Bool) (retries : Nat) :
    ((fetchWithRetry oracle retryOn retries).2 ≤ retries + 1)
    ∧ ((∀ i, 1 ≤ i → i ≤ retries + 1 → ∃ r, oracle i = .ok r ∧ retryOn r.status = true) →
        ∀ r, oracle (retries + 1) = .ok r →
        fetchWithRetry oracle retryOn retries = (.ok r, retries + 1))
    ∧ ((∀ i, 1 ≤ i → i ≤ retries + 1 → ∃ e, oracle i = .error e ∧ isTransientError e = true) →
        ∀ e, oracle (retries + 1) = .error e →
        fetchWithRetry oracle retryOn retries = (.error e, retries + 1))
    ∧ (∀ k e, 1 ≤ k → k ≤ retries + 1 →
        (∀ i, 1 ≤ i → i < k → attemptRetriable oracle retryOn i) →
        oracle k = .error e → isTransientError e = false →
        fetchWithRetry oracle retryOn retries = (.error e, k)) := by
  refine ⟨fetchGo_used_le oracle retryOn retries 1, ?_, ?_, ?_⟩
  · intro hall r hlast
    have := fetchGo_all_ok oracle retryOn retries 1
      (fun i h1 h2 => hall i h1 (by omega)) r (by rw [Nat.add_comm] at hlast; exact hlast)
    simpa [fetchWithRetry] using this
  · intro hall e hlast
    have := fetchGo_all_err oracle retryOn retries 1
      (fun i h1 h2 => hall i h1 (by omega)) e (by rw [Nat.add_comm] at hlast; exact hlast)
    simpa [fetchWithRetry] using this
  · intro k e h1 h2 hbefore herr htr
    have := fetchGo_nontransient oracle retryOn retries 1 k e h1 (by omega) hbefore herr htr
    have hk : k - 1 + 1 = k := by omega
    rw [hk] at this
    simpa [fetchWithRetry] using this

/-- C8 witness: with an oracle that always answers HTTP 429 and `retries = 1`,
the contract yields the last 429 response after exactly 2 attempts. -/
theorem C8_fetchWithRetry_contract_witness :
    fetchWithRetry (fun _ => .ok ⟨429⟩) defaultRetryOn 1 = (.ok ⟨429⟩, 2) :=
  (C8_fetchWithRetry_contract (fun _ => .ok ⟨429⟩) defaultRetryOn 1).2.1
    (fun i _ _ => ⟨⟨429⟩, rfl, by decide⟩) ⟨429⟩ rfl

/-- C4 counterexample: for `serverUrl = "http://localhost.evil.com"` the
derived WebSocket URL is `ws://localhost.evil.com/v1/ws`, which begins with
`ws://` and whose host is none of `localhost`, `127.0.0.1`, `[::1]` — yet
`connect` is not blocked (the substring test sees `localhost` inside the
hostname) and a WebSocket is created, contradicting the claim. -/
theorem C4_counterexample :
    deriveWsUrl "http://localhost.evil.com" = "ws://localhost.evil.com/v1/ws"
    ∧ jsStartsWith (deriveWsUrl "http://localhost.evil.com") "ws://" = true
    ∧ specUrlHost (deriveWsUrl "http://localhost.evil.com") = "localhost.evil.com"
    ∧ ("localhost.evil.com" ∉ (["localhost", "127.0.0.1", "[::1]"] : List String))
    ∧ connectBlocked "http://localhost.evil.com" = false
    ∧ connectOutcome "http://localhost.evil.com" = some "ws://localhost.evil.com/v1/ws" := by
  refine ⟨by decide, by decide, by decide, by decide, by decide, by decide⟩

/-- C4 (amended): for every account server URL whose derived WebSocket URL
begins with `ws://` and which contains none of the substrings `localhost`,
`127.0.0.1`, `[::1]` anywhere in the URL (the source performs a substring
test over the whole URL, not a host comparison), the connect routine refuses
to connect: it logs a blocking error and returns without creating a
WebSocket. -/
theorem C4_ws_block_amended (serverUrl : String)
    (h1 : jsStartsWith (deriveWsUrl serverUrl) "ws://" = true)
    (h2 : hasSubStr (deriveWsUrl serverUrl) "localhost" = false)
    (h3 : hasSubStr (deriveWsUrl serverUrl) "127.0.0.1" = false)
    (h4 : hasSubStr (deriveWsUrl serverUrl) "[::1]" = false) :
    connectBlocked serverUrl = true ∧ connectOutcome serverUrl = none := by
  have hb : connectBlocked serverUrl = true := by
    simp only [connectBlocked]
    rw [h1, h2, h3, h4]
    rfl
  exact ⟨hb, by unfold connectOutcome; rw [hb]; rfl⟩

/-- C4 amended witness: `http://203.0.113.7:8090` derives a blocked
`ws://` URL to a remote host. -/
theorem C4_ws_block_amended_witness :
    connectBlocked "http://203.0.113.7:8090" = true
    ∧ connectOutcome "http://203.0.113.7:8090" = none :=
  C4_ws_block_amended "http://203.0.113.7:8090"
    (by decide) (by decide) (by decide) (by decide)

/- ===================================================================
   Lemmas about atCount / stripGo
   =================================================================== -/

theorem atCount_cons (c : Char) (s : List Char) :
    atCount (c :: s) = (if Char.toLower c == '@' then 1 else 0) + atCount s := by
  by_cases h : Char.toLower c == '@'
  · simp only [atCount, List.filter_cons, h, if_pos]
    simp [Nat.add_comm]
  · simp [atCount, List.filter_cons, h]

theorem atCount_le_of_sublist {l l' : List Char} (h : List.Sublist l l') : atCount l ≤ atCount l' :=
  List.Sublist.length_le (List.Sublist.filter _ h)

theorem atCount_reverse (l : List Char) : atCount l.reverse = atCount l := by
  simp [atCount, List.filter_reverse]

theorem atCount_jsTrim_le (s : List Char) : atCount (jsTrim s) ≤ atCount s := by
  unfold jsTrim
  calc atCount ((s.dropWhile isJsSpace).reverse.dropWhile isJsSpace).reverse
      = atCount ((s.dropWhile isJsSpace).reverse.dropWhile isJsSpace) := atCount_reverse _
    _ ≤ atCount (s.dropWhile isJsSpace).reverse :=
        atCount_le_of_sublist (List.dropWhile_sublist _)
    _ = atCount (s.dropWhile isJsSpace) := atCount_reverse _
    _ ≤ atCount s := atCount_le_of_sublist (List.dropWhile_sublist _)

/-- The continuation list of a matched occurrence is a sublist of the tail. -/
theorem stripTail_sublist (name : List Char) (c : Char) (rest : List Char) :
    List.Sublist (((c :: rest).drop (name.length + 1)).dropWhile isJsSpace) rest := by
  have h1 : List.Sublist (((c :: rest).drop (name.length + 1)).dropWhile isJsSpace)
      ((c :: rest).drop (name.length + 1)) := List.dropWhile_sublist _
  have h2 : (c :: rest).drop (name.length + 1) = rest.drop name.length := by
    simp [List.drop_succ_cons]
  have h3 : List.Sublist (rest.drop name.length) rest := List.drop_sublist _ _
  rw [h2] at h1
  exact h1.trans h3

theorem stripTail_length_le (name : List Char) (c : Char) (rest : List Char) :
    (((c :: rest).drop (name.length + 1)).dropWhile isJsSpace).length ≤ rest.length :=
  List.Sublist.length_le (stripTail_sublist name c rest)

/-- A matched position starts with a character lowering to `'@'`. -/
theorem head_at_of_match {name : List Char} {c : Char} {rest : List Char}
    (h : isPre (lowerL ('@' :: name)) (lowerL (c :: rest)) = true) :
    Char.toLower c == '@' := by
  simp only [lowerL, List.map_cons, isPre, Bool.and_eq_true] at h
  have := h.1
  simp only [beq_iff_eq] at this ⊢
  rw [← this]
  decide

theorem stripGo_atCount_le (name : List Char) :
    ∀ fuel s, s.length ≤ fuel → atCount (stripGo name fuel s) ≤ atCount s := by
  intro fuel
  induction fuel with
  | zero => intro s _; simp [stripGo]
  | succ n ih =>
    intro s hlen
    match s with
    | [] => simp [stripGo]
    | c :: rest =>
      simp only [stripGo]
      by_cases hm : isPre (lowerL ('@' :: name)) (lowerL (c :: rest)) = true
      · rw [if_pos hm]
        have h1 := ih (((c :: rest).drop (name.length + 1)).dropWhile isJsSpace)
          (le_trans (stripTail_length_le name c rest) (by simpa using hlen))
        have h2 := atCount_le_of_sublist (stripTail_sublist name c rest)
        have h3 : atCount rest ≤ atCount (c :: rest) := by
          rw [atCount_cons]; omega
        omega
      · rw [if_neg hm]
        have h1 := ih rest (by simpa using hlen)
        rw [atCount_cons, atCount_cons]
        omega

theorem stripGo_atCount_lt (name : List Char) :
    ∀ fuel s, s.length ≤ fuel →
      hasSub (lowerL s) ('@' :: lowerL name) = true →
      atCount (stripGo name fuel s) < atCount s := by
  intro fuel
  induction fuel with
  | zero =>
    intro s hlen hsub
    interval_cases hs : s.length
    · have : s = [] := List.length_eq_zero.mp hs
      subst this
      simp [lowerL, hasSub] at hsub
  | succ n ih =>
    intro s hlen hsub
    match s with
    | [] => simp [lowerL, hasSub] at hsub
    | c :: rest =>
      simp only [stripGo]
      by_cases hm : isPre (lowerL ('@' :: name)) (lowerL (c :: rest)) = true
      · rw [if_pos hm]
        have hhead := head_at_of_match hm
        have h1 := stripGo_atCount_le name n
          (((c :: rest).drop (name.length + 1)).dropWhile isJsSpace)
          (le_trans (stripTail_length_le name c rest) (by simpa using hlen))
        have h2 := atCount_le_of_sublist (stripTail_sublist name c rest)
        rw [atCount_cons, if_pos hhead]
        omega
      · rw [if_neg hm]
        have hsub' : hasSub (lowerL rest) ('@' :: lowerL name) = true := by
          have : lowerL (c :: rest) = Char.toLower c :: lowerL rest := by simp [lowerL]
          rw [this] at hsub
          simp only [hasSub, Bool.or_eq_true] at hsub
          rcases hsub with h | h
          · exact absurd (by rw [← this] at h; exact h) (by simpa using hm)
          · exact h
        have h1 := ih rest (by simpa using hlen) hsub'
        rw [atCount_cons, atCount_cons]
        omega

theorem stripGo_id_of_atCount_zero (name : List Char) :
    ∀ fuel s, atCount s = 0 → stripGo name fuel s = s := by
  intro fuel
  induction fuel with
  | zero => intro s _; simp [stripGo]
  | succ n ih =>
    intro s h0
    match s with
    | [] => simp [stripGo]
    | c :: rest =>
      have hc : (Char.toLower c == '@') = false := by
        rw [atCount_cons] at h0
        by_cases hx : Char.toLower c == '@'
        · rw [if_pos hx] at h0; omega
        · simpa using hx
      have hm : isPre (lowerL ('@' :: name)) (lowerL (c :: rest)) = false := by
        simp only [lowerL, List.map_cons, isPre]
        have : ('@' == Char.toLower c) = false := by
          cases hb : ('@' == Char.toLower c)
          · rfl
          · have hcc : Char.toLower c = '@' := (beq_iff_eq.mp hb).symm
            rw [hcc] at hc
            simp at hc
        simp [this]
      simp only [stripGo, hm, Bool.false_eq_true, if_false]
      have hrest : atCount rest = 0 := by
        rw [atCount_cons, hc] at h0
        simpa using h0
      rw [ih rest hrest]

theorem stripGo_id_of_atCount_eq (name : List Char) :
    ∀ fuel s, s.length ≤ fuel →
      atCount (stripGo name fuel s) = atCount s → stripGo name fuel s = s := by
  intro fuel
  induction fuel with
  | zero => intro s _ _; simp [stripGo]
  | succ n ih =>
    intro s hlen heq
    match s with
    | [] => simp [stripGo]
    | c :: rest =>
      by_cases hm : isPre (lowerL ('@' :: name)) (lowerL (c :: rest)) = true
      · exfalso
        have hhead := head_at_of_match hm
        have h1 := stripGo_atCount_le name n
          (((c :: rest).drop (name.length + 1)).dropWhile isJsSpace)
          (le_trans (stripTail_length_le name c rest) (by simpa using hlen))
        have h2 := atCount_le_of_sublist (stripTail_sublist name c rest)
        simp only [stripGo, hm, if_pos] at heq
        rw [atCount_cons, if_pos hhead] at heq
        omega
      · simp only [stripGo, hm, Bool.false_eq_true, if_false] at heq ⊢
        rw [atCount_cons, atCount_cons] at heq
        have h1 := ih rest (by simpa using hlen) (by omega)
        rw [h1]

theorem stripPass_atCount_le (name s : List Char) : atCount (stripPass name s) ≤ atCount s :=
  stripGo_atCount_le name s.length s (Nat.le_refl _)

theorem stripPass_atCount_lt (name s : List Char)
    (h : hasSub (lowerL s) ('@' :: lowerL name) = true) :
    atCount (stripPass name s) < atCount s :=
  stripGo_atCount_lt name s.length s (Nat.le_refl _) h

theorem stripPass_id_of_zero (name s : List Char) (h : atCount s = 0) :
    stripPass name s = s :=
  stripGo_id_of_atCount_zero name s.length s h

theorem stripPass_id_of_eq (name s : List Char)
    (h : atCount (stripPass name s) = atCount s) : stripPass name s = s :=
  stripGo_id_of_atCount_eq name s.length s (Nat.le_refl _) h

theorem stripFold_atCount_le (names : List (List Char)) :
    ∀ s, atCount (names.foldl (fun s name => stripPass name s) s) ≤ atCount s := by
  induction names with
  | nil => intro s; simp
  | cons n rest ih =>
    intro s
    simp only [List.foldl_cons]
    exact le_trans (ih (stripPass n s)) (stripPass_atCount_le n s)

theorem stripFold_atCount_zero (names : List (List Char)) :
    ∀ s, atCount s ≤ 1 →
      (∃ n ∈ names, hasSub (lowerL s) ('@' :: lowerL n) = true) →
      atCount (names.foldl (fun s name => stripPass name s) s) = 0 := by
  induction names with
  | nil => intro s _ h; simp at h
  | cons n rest ih =>
    intro s hle hex
    simp only [List.foldl_cons]
    by_cases hz : atCount (stripPass n s) = 0
    · have := stripFold_atCount_le rest (stripPass n s)
      omega
    · have hle' := stripPass_atCount_le n s
      have heq : atCount (stripPass n s) = atCount s := by omega
      have hid := stripPass_id_of_eq n s heq
      obtain ⟨n', hn', hsub⟩ := hex
      rcases List.mem_cons.mp hn' with hnn | hmem
      · exfalso
        subst hnn
        have := stripPass_atCount_lt n' s hsub
        omega
      · rw [hid]
        exact ih s hle ⟨n', hmem, hsub⟩

theorem at_mem_of_hasSub {s q : List Char} (h : hasSub s ('@' :: q) = true) : '@' ∈ s := by
  induction s with
  | nil => simp [hasSub] at h
  | cons c rest ih =>
    simp only [hasSub, Bool.or_eq_true] at h
    rcases h with h | h
    · simp only [isPre, Bool.and_eq_true] at h
      have : '@' = c := beq_iff_eq.mp h.1
      rw [← this]
      exact List.mem_cons_self _ _
    · exact List.mem_cons_of_mem _ (ih h)

theorem atCount_pos_of_at_mem_lower {s : List Char} (h : '@' ∈ lowerL s) : 1 ≤ atCount s := by
  obtain ⟨c, hc, hlow⟩ := List.mem_map.mp h
  have : c ∈ s.filter (fun c => Char.toLower c == '@') :=
    List.mem_filter.mpr ⟨hc, by rw [hlow]; rfl⟩
  have := List.length_pos.mpr (List.ne_nil_of_mem this)
  simpa [atCount] using this

/-- C6 counterexample: with `mentionNames = ["bot"]` and input `"@@botbot"`,
`detectAndStripMention` reports `mentioned = true` but the single
left-to-right replace pass removes only the inner `@bot`, splicing the
leading `@` together with the trailing `bot`: the returned stripped text is
`"@bot"`, which still contains the substring `@bot` (case-insensitively).
This refutes the claim as stated. -/
theorem C6_counterexample :
    (detectAndStripMention "@@botbot".toList ["bot".toList]).1 = true
    ∧ (detectAndStripMention "@@botbot".toList ["bot".toList]).2 = "@bot".toList
    ∧ hasSub (lowerL (detectAndStripMention "@@botbot".toList ["bot".toList]).2)
        ('@' :: lowerL "bot".toList) = true := by
  refine ⟨by decide, by decide, by decide⟩

/-- C6 (amended): `detectAndStripMention` performs one left-to-right,
non-rescanning replace pass per name, so stripping can splice a new
`@<name>` occurrence out of the remnants; the no-residual guarantee holds
under the side condition that the input contains at most one `@` (more
precisely, at most one character lowercasing to `@`): then, whenever
`mentioned = true`, the returned stripped text contains no substring
`@<name>` for any name in the list, compared case-insensitively. -/
theorem C6_mention_strip_amended (text : List Char) (names : List (List Char))
    (hAt : atCount text ≤ 1)
    (hm : (detectAndStripMention text names).1 = true) :
    ∀ n ∈ names,
      hasSub (lowerL (detectAndStripMention text names).2) ('@' :: lowerL n) = false := by
  intro n hn
  by_cases hc : names.any (fun name => hasSub (lowerL text) ('@' :: lowerL name)) = true
  case neg =>
    unfold detectAndStripMention at hm
    rw [if_neg hc] at hm
    simp at hm
  have hex : ∃ name ∈ names, hasSub (lowerL text) ('@' :: lowerL name) = true :=
    List.any_eq_true.mp hc
  have hzero := stripFold_atCount_zero names text hAt hex
  have htrim : atCount (jsTrim (names.foldl (fun s name => stripPass name s) text)) = 0 := by
    have := atCount_jsTrim_le (names.foldl (fun s name => stripPass name s) text)
    omega
  have h2 : (detectAndStripMention text names).2
      = jsTrim (names.foldl (fun s name => stripPass name s) text) := by
    unfold detectAndStripMention
    rw [if_pos hc]
  rw [h2]
  cases hsub : hasSub (lowerL (jsTrim (names.foldl (fun s name => stripPass name s) text)))
      ('@' :: lowerL n)
  · rfl
  · exfalso
    have hmem := at_mem_of_hasSub hsub
    have := atCount_pos_of_at_mem_lower hmem
    omega

/-- C6 amended witness: `"@bot hi"` has a single `@`; after stripping, no
`@bot` substring remains. -/
theorem C6_mention_strip_amended_witness :
    atCount "@bot hi".toList ≤ 1
    ∧ (detectAndStripMention "@bot hi".toList ["bot".toList]).1 = true
    ∧ hasSub (lowerL (detectAndStripMention "@bot hi".toList ["bot".toList]).2)
        ('@' :: lowerL "bot".toList) = false :=
  ⟨by decide, by decide,
    C6_mention_strip_amended "@bot hi".toList ["bot".toList] (by decide) (by decide)
      "bot".toList (by simp)⟩

theorem runRL_append (maxN : Nat) (windowMs : Int) (st : RLState)
    (l₁ l₂ : List (String × Int)) :
    runRL maxN windowMs st (l₁ ++ l₂) =
      ((runRL maxN windowMs (runRL maxN windowMs st l₁).1 l₂).1,
       (runRL maxN windowMs st l₁).2 ++ (runRL maxN windowMs (runRL maxN windowMs st l₁).1 l₂).2) := by
  induction l₁ generalizing st with
  | nil => simp [runRL]
  | cons c rest ih =>
    simp only [List.cons_append, runRL, List.append_eq]
    rw [ih]

theorem admittedTimes_append (s : String) (r₁ r₂ : List ((String × Int) × Bool)) :
    admittedTimes s (r₁ ++ r₂) = admittedTimes s r₁ ++ admittedTimes s r₂ := by
  simp [admittedTimes, List.filter_append]

/-- Pointwise implication between Bool predicates gives a filter sublist. -/
theorem filter_sublist_of_imp {α : Type} (p q : α → Bool) (l : List α)
    (h : ∀ a, p a = true → q a = true) :
    List.Sublist (l.filter p) (l.filter q) := by
  induction l with
  | nil => simp
  | cons c rest ih =>
    by_cases hp : p c = true
    · rw [List.filter_cons_of_pos hp, List.filter_cons_of_pos (h c hp)]
      exact List.Sublist.cons₂ c ih
    · rw [List.filter_cons_of_neg (by simpa using hp)]
      by_cases hq : q c = true
      · rw [List.filter_cons_of_pos hq]
        exact List.Sublist.cons c ih
      · rw [List.filter_cons_of_neg (by simpa using hq)]
        exact ih

theorem filter_idem {α : Type} (p : α → Bool) (l : List α) :
    (l.filter p).filter p = l.filter p := by
  induction l with
  | nil => simp
  | cons c rest ih =>
    by_cases hp : p c = true
    · rw [List.filter_cons_of_pos hp, List.filter_cons_of_pos hp, ih]
    · rw [List.filter_cons_of_neg (by simpa using hp), ih]

theorem runRL_singleton (maxN : Nat) (windowMs : Int) (st : RLState) (c : String × Int) :
    runRL maxN windowMs st [c] =
      ((isLimited maxN windowMs st c.1 c.2).2, [(c, (isLimited maxN windowMs st c.1 c.2).1)]) := by
  simp [runRL]

/-- Invariant of the limiter run: at any bound `u` at or after every call
time so far, the admitted times of sender `s` still inside the window at `u`
form a sublist of the sender's stored timestamp list. -/
theorem runRL_admitted_inv (maxN : Nat) (windowMs : Int) (s : String) :
    ∀ calls : List (String × Int),
      List.Pairwise (· ≤ ·) (calls.map Prod.snd) →
      ∀ u : Int, (∀ t ∈ calls.map Prod.snd, t ≤ u) →
      List.Sublist
        ((admittedTimes s (runRL maxN windowMs rlEmpty calls).2).filter
          (fun t => decide (u - t < windowMs)))
        ((runRL maxN windowMs rlEmpty calls).1 s) := by
  intro calls
  induction calls using List.reverseRecOn with
  | nil => intro _ u _; simp [runRL, admittedTimes, rlEmpty]
  | append_singleton pre c ih =>
    intro hsorted u hu
    obtain ⟨s', now⟩ := c
    have hmap : (pre ++ [(s', now)]).map Prod.snd = pre.map Prod.snd ++ [now] := by
      simp
    rw [hmap] at hsorted hu
    have hparts := List.pairwise_append.mp hsorted
    have hpre : List.Pairwise (· ≤ ·) (pre.map Prod.snd) := hparts.1
    have hle_now : ∀ t ∈ pre.map Prod.snd, t ≤ now := by
      intro t ht
      exact hparts.2.2 t ht now (List.mem_singleton_self now)
    have hnow_u : now ≤ u := hu now (List.mem_append_right _ (List.mem_singleton_self now))
    have hpre_u : ∀ t ∈ pre.map Prod.snd, t ≤ u := fun t ht =>
      hu t (List.mem_append_left _ ht)
    rw [runRL_append, runRL_singleton]
    set A := runRL maxN windowMs rlEmpty pre with hA
    simp only [admittedTimes_append]
    by_cases hss : s' = s
    · subst hss
      have ihnow := ih hpre now hle_now
      set fresh := (A.1 s').filter (fun t => decide (now - t < windowMs)) with hfresh
      have step1 : List.Sublist
          ((admittedTimes s' A.2).filter (fun t => decide (now - t < windowMs))) fresh := by
        rw [← filter_idem (fun t => decide (now - t < windowMs)) (admittedTimes s' A.2)]
        exact List.Sublist.filter _ ihnow
      have hAu : List.Sublist
          ((admittedTimes s' A.2).filter (fun t => decide (u - t < windowMs))) fresh := by
        refine List.Sublist.trans ?_ step1
        exact filter_sublist_of_imp _ _ _ (fun t hptt => by
          simp only [decide_eq_true_eq] at hptt ⊢
          omega)
      by_cases hb : maxN ≤ fresh.length
      · have hbval : isLimited maxN windowMs A.1 s' now
            = (true, fun s => if s = s' then fresh else A.1 s) := by
          simp only [isLimited, ← hfresh]
          rw [if_pos hb]
        rw [hbval]
        have hadm : admittedTimes s' [((s', now), true)] = [] := by
          simp [admittedTimes]
        rw [hadm, List.append_nil]
        simp only [if_pos rfl]
        exact hAu
      · have hbval : isLimited maxN windowMs A.1 s' now
            = (false, fun s => if s = s' then fresh ++ [now] else A.1 s) := by
          simp only [isLimited, ← hfresh]
          rw [if_neg hb]
        rw [hbval]
        have hadm : admittedTimes s' [((s', now), false)] = [now] := by
          simp [admittedTimes]
        rw [hadm]
        simp only [if_pos rfl]
        rw [List.filter_append]
        by_cases hw : u - now < windowMs
        · rw [show List.filter (fun t => decide (u - t < windowMs)) [now]
              = [now] by simp [hw]]
          exact List.Sublist.append hAu (List.Sublist.refl _)
        · rw [show List.filter (fun t => decide (u - t < windowMs)) [now]
              = [] by simp [hw]]
          rw [List.append_nil]
          exact List.Sublist.trans hAu (List.sublist_append_left _ _)
    · have hadm : admittedTimes s [((s', now), (isLimited maxN windowMs A.1 s' now).1)] = [] := by
        simp only [admittedTimes, List.filter_cons]
        have : ((s' == s) &&
            ((isLimited maxN windowMs A.1 s' now).1 == false)) = false := by
          have : (s' == s) = false := beq_eq_false_iff_ne.mpr hss
          rw [this]
          rfl
        rw [this]
        simp
      rw [hadm, List.append_nil]
      have hst : (isLimited maxN windowMs A.1 s' now).2 s = A.1 s := by
        simp only [isLimited]
        by_cases hb : maxN ≤ ((A.1 s').filter (fun t => decide (now - t < windowMs))).length
      
        · rw [if_pos hb]
          simp only []
          rw [if_neg (fun h => hss h.symm)]
        · rw [if_neg hb]
          simp only []
          rw [if_neg (fun h => hss h.symm)]
      rw [hst]
      exact ih hpre u hpre_u

theorem runRL_window_count (maxN : Nat) (windowMs : Int) (s : String) (a : Int) :
    ∀ calls : List (String × Int),
      List.Pairwise (· ≤ ·) (calls.map Prod.snd) →
      ((admittedTimes s (runRL maxN windowMs rlEmpty calls).2).filter
        (fun t => decide (a ≤ t) && decide (t < a + windowMs))).length ≤ maxN := by
  intro calls
  induction calls using List.reverseRecOn with
  | nil => intro _; simp [runRL, admittedTimes]
  | append_singleton pre c ih =>
    intro hsorted
    obtain ⟨s', now⟩ := c
    have hmap : (pre ++ [(s', now)]).map Prod.snd = pre.map Prod.snd ++ [now] := by
      simp
    rw [hmap] at hsorted
    have hparts := List.pairwise_append.mp hsorted
    have hpre : List.Pairwise (· ≤ ·) (pre.map Prod.snd) := hparts.1
    have hle_now : ∀ t ∈ pre.map Prod.snd, t ≤ now := by
      intro t ht
      exact hparts.2.2 t ht now (List.mem_singleton_self now)
    rw [runRL_append, runRL_singleton]
    set A := runRL maxN windowMs rlEmpty pre with hA
    simp only [admittedTimes_append, List.filter_append, List.length_append]
    have hcount := ih hpre
    by_cases hss : s' = s
    · subst hss
      cases hbv : (isLimited maxN windowMs A.1 s' now).1 with
      | true =>
        have hadm : admittedTimes s' [((s', now), true)] = [] := by
          simp [admittedTimes]
        rw [hadm]
        simpa using hcount
      | false =>
        have hadm : admittedTimes s' [((s', now), false)] = [now] := by
          simp [admittedTimes]
        rw [hadm]
        by_cases hwin : a ≤ now ∧ now < a + windowMs
        · -- the admitted call lies inside the window: bound the earlier count
          set fresh := (A.1 s').filter (fun t => decide (now - t < windowMs)) with hfresh
          have hlt : fresh.length < maxN := by
            by_cases hb : maxN ≤ fresh.length
            · exfalso
              have : (isLimited maxN windowMs A.1 s' now).1 = true := by
                simp only [isLimited, ← hfresh]
                rw [if_pos hb]
              rw [this] at hbv
              exact Bool.true_eq_false.mp hbv
            · omega
          have hinv := runRL_admitted_inv maxN windowMs s' pre hpre now hle_now
          have step1 : List.Sublist
              ((admittedTimes s' A.2).filter (fun t => decide (now - t < windowMs))) fresh := by
            rw [← filter_idem (fun t => decide (now - t < windowMs)) (admittedTimes s' A.2)]
            exact List.Sublist.filter _ hinv
          have hwinsub : List.Sublist
              ((admittedTimes s' A.2).filter
                (fun t => decide (a ≤ t) && decide (t < a + windowMs)))
              ((admittedTimes s' A.2).filter (fun t => decide (now - t < windowMs))) := by
            refine filter_sublist_of_imp _ _ _ (fun t ht => ?_)
            simp only [Bool.and_eq_true, decide_eq_true_eq] at ht ⊢
            omega
          have hb1 : ((admittedTimes s' A.2).filter
              (fun t => decide (a ≤ t) && decide (t < a + windowMs))).length < maxN :=
            lt_of_le_of_lt
              (List.Sublist.length_le (List.Sublist.trans hwinsub step1)) hlt
          have h2 : (List.filter (fun t => decide (a ≤ t) && decide (t < a + windowMs))
              [now]).length ≤ 1 := by
            simp only [List.filter]
            by_cases h : (decide (a ≤ now) && decide (now < a + windowMs)) = true
            · rw [h]; simp
            · rw [Bool.not_eq_true] at h; rw [h]; simp
          omega
        · have : List.filter (fun t => decide (a ≤ t) && decide (t < a + windowMs)) [now]
              = [] := by
            simp only [List.filter_cons, List.filter_nil]
            have : (decide (a ≤ now) && decide (now < a + windowMs)) = false := by
              rcases not_and_or.mp hwin with h | h
              · simp [h]
              · simp [h]
            rw [this]
            simp
          rw [this]
          simpa using hcount
    · have hne : (s' == s) = false := beq_eq_false_iff_ne.mpr hss
      have hadm : admittedTimes s [((s', now), (isLimited maxN windowMs A.1 s' now).1)]
          = [] := by
        simp [admittedTimes, hne]
      rw [hadm]
      simpa using hcount

/-- C7: for any single sender and any time-ordered sequence of `isLimited`
calls, the number of calls that return `false` (messages admitted to the
pipeline) whose timestamps fall within any sliding window `[a, a + W)` of
`W` milliseconds is at most `M`; and a call that returns `true` does not
append a timestamp (the stored list is only trimmed to the window).
The monitor instantiates `M = RATE_LIMIT_MAX = 10`,
`W = RATE_LIMIT_WINDOW_MS = 60000`. -/
theorem C7_rate_limit_window (maxN : Nat) (windowMs : Int)
    (calls : List (String × Int))
    (hsorted : List.Pairwise (· ≤ ·) (calls.map Prod.snd)) (s : String) (a : Int) :
    ((admittedTimes s (runRL maxN windowMs rlEmpty calls).2).filter
      (fun t => decide (a ≤ t) && decide (t < a + windowMs))).length ≤ maxN
    ∧ (∀ st sender now, (isLimited maxN windowMs st sender now).1 = true →
        (isLimited maxN windowMs st sender now).2 sender
          = (st sender).filter (fun t => decide (now - t < windowMs))) := by
  constructor
  · exact runRL_window_count maxN windowMs s a calls hsorted
  · intro st sender now h
    simp only [isLimited] at h ⊢
    by_cases hb : maxN ≤ ((st sender).filter (fun t => decide (now - t < windowMs))).length
    · rw [if_pos hb]
      simp
    · rw [if_neg hb] at h
      simp at h

/-- C7 witness: three calls by sender `u` at times 0, 1, 2 with `M = 2`,
`W = 10`: at most 2 admits fall inside the window starting at 0. -/
theorem C7_rate_limit_window_witness :
    ((admittedTimes "u" (runRL 2 10 rlEmpty [("u", 0), ("u", 1), ("u", 2)]).2).filter
      (fun t => decide ((0 : Int) ≤ t) && decide (t < 0 + 10))).length ≤ 2 :=
  (C7_rate_limit_window 2 10 [("u", 0), ("u", 1), ("u", 2)] (by decide) "u" 0).1

theorem runConc_le (trace : List DispatchAction) :
    ∀ active, active ≤ MAX_CONCURRENT → runConc active trace ≤ MAX_CONCURRENT := by
  induction trace with
  | nil => intro active h; simpa [runConc] using h
  | cons a rest ih =>
    intro active h
    have hstep : concStep active a ≤ MAX_CONCURRENT := by
      cases a <;> simp only [concStep, tryStartDispatch, finishDispatch] <;>
        first
        | (by_cases hc : MAX_CONCURRENT ≤ active
           · rw [if_pos hc]; exact h
           · rw [if_neg hc]; omega)
        | omega
    simpa [runConc] using ih (concStep active a) hstep

/-- C3: starting from an idle monitor, after any valid interleaving of the
dispatch-starting paths (each checking the cap before incrementing) and
completions (each decrementing), the `activeDispatches` counter never
exceeds `MAX_CONCURRENT = 3`; since this holds for every prefix of a trace,
it holds at every instant of the monitor's execution. -/
theorem C3_active_dispatches_bounded (trace : List DispatchAction)
    (hvalid : concValidFrom 0 trace = true) :
    runConc 0 trace ≤ MAX_CONCURRENT
    ∧ ∀ pre, List.IsPrefix pre trace → runConc 0 pre ≤ MAX_CONCURRENT := by
  refine ⟨runConc_le trace 0 (by norm_num [MAX_CONCURRENT]), ?_⟩
  intro pre _
  exact runConc_le pre 0 (by norm_num [MAX_CONCURRENT])

/-- C3 witness: four start attempts while three dispatches are in flight —
the fourth is dropped by the guard and the counter stays at 3. -/
theorem C3_active_dispatches_bounded_witness :
    runConc 0 [DispatchAction.liveMessage, DispatchAction.mediaGroupFlush,
      DispatchAction.catchUp, DispatchAction.voiceTranscribed,
      DispatchAction.finish, DispatchAction.liveMessage] ≤ MAX_CONCURRENT :=
  (C3_active_dispatches_bounded _ (by decide)).1

theorem processMessage_echo_drop (ctx : MonitorCtx) (st : PipelineState)
    (item : InboundItem) (st' : PipelineState) (d : Dispatch)
    (h : processMessage ctx st item = (st', some d)) :
    isEcho (itemVia item) (itemSenderId item) ctx.botUserId = false := by
  match hp : item.payload with
  | none =>
    simp only [processMessage, hp] at h
    have h2 : (none : Option Dispatch) = some d := congrArg Prod.snd h
    exact absurd h2 (by simp)
  | some raw =>
    simp only [processMessage, hp] at h
    by_cases he : isEcho (raw.payload.bind (fun n => n.via)) (raw.author_id.getD "")
        ctx.botUserId = true
    · rw [if_pos he] at h
      simp at h
    · simp only [itemVia, itemSenderId, hp, Option.bind_some]
      simpa using he

/-- C1: over any sequence of inbound `message:new` events, an event whose
nested `via` is `"openclaw"`, or whose author is the bot while `botUserId`
is known, is never dispatched to the agent: every dispatch in the run's
output comes from a non-echo event (`processMessage` returns before any
dispatch for an echo). -/
theorem C1_echo_never_reaches_agent (st : PipelineState)
    (items : List (MonitorCtx × InboundItem)) :
    ∀ p ∈ (runPipeline st items).2, ∀ d, p.2 = some d →
      isEcho (itemVia p.1.2) (itemSenderId p.1.2) p.1.1.botUserId = false := by
  induction items generalizing st with
  | nil => intro p hp; simp [runPipeline] at hp
  | cons x rest ih =>
    intro p hp d hd
    simp only [runPipeline] at hp
    rcases List.mem_cons.mp hp with hhead | htail
    · subst hhead
      simp only at hd
      exact processMessage_echo_drop x.1 st x.2 (processMessage x.1 st x.2).1 d
        (by rw [← hd])
    · exact ih (processMessage x.1 st x.2).1 p htail d hd

/-- C1 witness: the owner seed event is dispatched and is not an echo. -/
theorem C1_echo_never_reaches_agent_witness :
    isEcho (itemVia ownerSeedItem) (itemSenderId ownerSeedItem)
      ownerSeedCtx.botUserId = false :=
  C1_echo_never_reaches_agent initialState [(ownerSeedCtx, ownerSeedItem)]
    ((ownerSeedCtx, ownerSeedItem), some ownerSeedDispatch) (by decide)
    ownerSeedDispatch (by decide)

theorem finishDispatchBody_dispatch (ctx : MonitorCtx) (raw : WSMessagePayload)
    (item : InboundItem) (senders : RLState) (hist : String → List HEntry)
    (b0 : String) (d : Dispatch)
    (h : (finishDispatchBody ctx raw item senders hist b0).2.2 = some d) :
    ∃ b, d = mkDispatch ctx raw item b := by
  unfold finishDispatchBody at h
  simp only [] at h
  exact ⟨_, (Option.some.inj h).symm⟩

theorem processRest_dispatch_shape (ctx : MonitorCtx) (senders : RLState)
    (hist : String → List HEntry) (raw : WSMessagePayload) (item : InboundItem)
    (d : Dispatch) (h : (processRest ctx senders hist raw item).2.2 = some d) :
    ∃ b, d = mkDispatch ctx raw item b := by
  unfold processRest at h
  simp only [] at h
  repeat' split at h
  all_goals first
    | (exact finishDispatchBody_dispatch ctx raw item _ _ _ d h)
    | (exfalso; exact absurd h (by simp))

theorem routeSessionKey_split (a : String) (own : Bool) (ch : String) :
    routeSessionKey a own ch
      = "agent:wristclaw:" ++ (if a == "default" then "" else a ++ ":")
        ++ (if own then "direct" else "group") ++ ":ch:" ++ ch := by
  unfold routeSessionKey
  by_cases ha : (a == "default") = true
  · rw [if_pos ha, if_pos ha, String.append_empty]
  · rw [if_neg ha, if_neg ha]
    rw [String.append_assoc "agent:wristclaw:" a ":"]

theorem processMessage_dispatch_shape (ctx : MonitorCtx) (st : PipelineState)
    (item : InboundItem) (st' : PipelineState) (d : Dispatch)
    (h : processMessage ctx st item = (st', some d)) :
    ∃ raw b, item.payload = some raw ∧ d = mkDispatch ctx raw item b := by
  match hp : item.payload with
  | none =>
    simp only [processMessage, hp] at h
    have h2 : (none : Option Dispatch) = some d := congrArg Prod.snd h
    exact absurd h2 (by simp)
  | some raw =>
    refine ⟨raw, ?_⟩
    simp only [processMessage, hp] at h
    repeat' split at h
    all_goals first
      | (have h2 : (none : Option Dispatch) = some d := congrArg Prod.snd h
         exact absurd h2 (by simp))
      | (have h2 : (processRest ctx _ _ raw item).2.2 = some d := congrArg Prod.snd h
         obtain ⟨b, hb⟩ := processRest_dispatch_shape ctx _ _ raw item d h2
         exact ⟨b, rfl, hb⟩)

/-- C9: every dispatched message's session key has the form
`agent:wristclaw:[<accountId>:]<direct|group>:ch:<channelId>` — the segment
after `agent:` is the fixed literal `wristclaw` (never the resolved agent
id), the account segment appears only for non-default accounts, and
`direct` is used exactly when the sender is the owner; in particular the
owner-DM seed on channel `ch-1` yields
`SessionKey = "agent:wristclaw:direct:ch:ch-1"` (with
`CommandAuthorized = true` and `BodyForAgent = "hi"`). -/
theorem C9_session_key_form (ctx : MonitorCtx) (st : PipelineState)
    (item : InboundItem) (d : Dispatch)
    (h : (processMessage ctx st item).2 = some d) :
    d.sessionKey
      = "agent:wristclaw:"
        ++ (if ctx.account.accountId == "default" then "" else ctx.account.accountId ++ ":")
        ++ (if isOwnerSender ctx.account (itemSenderId item) then "direct" else "group")
        ++ ":ch:" ++ item.channelId
    ∧ (processMessage ownerSeedCtx initialState ownerSeedItem).2 = some ownerSeedDispatch
    ∧ ownerSeedDispatch.sessionKey = "agent:wristclaw:direct:ch:ch-1"
    ∧ ownerSeedDispatch.commandAuthorized = true
    ∧ ownerSeedDispatch.bodyForAgent = "hi" := by
  obtain ⟨raw, b, hp, hd⟩ := processMessage_dispatch_shape ctx st item
    (processMessage ctx st item).1 d (by rw [← h])
  refine ⟨?_, by decide, by decide, by decide, by decide⟩
  subst hd
  simp only [mkDispatch]
  rw [routeSessionKey_split]
  simp [itemSenderId, hp]

/-- C9 witness: the owner seed run satisfies the hypothesis. -/
theorem C9_session_key_form_witness :
    ownerSeedDispatch.sessionKey
      = "agent:wristclaw:"
        ++ (if ownerSeedCtx.account.accountId == "default" then ""
            else ownerSeedCtx.account.accountId ++ ":")
        ++ (if isOwnerSender ownerSeedCtx.account (itemSenderId ownerSeedItem)
            then "direct" else "group")
        ++ ":ch:" ++ ownerSeedItem.channelId :=
  (C9_session_key_form ownerSeedCtx initialState ownerSeedItem ownerSeedDispatch
    (by decide)).1

/-- C10: a `message:new` without a `message_id` bypasses both the
cross-account and the per-account dedup checks: processing the identical
event twice produces two dispatches to the agent. -/
theorem C10_missing_message_id_bypasses_dedup :
    itemMsgId noIdSeedItem = none
    ∧ ((runPipeline initialState
          [(visitorCtx, noIdSeedItem), (visitorCtx, noIdSeedItem)]).2.filterMap
        (fun r => r.2)).length = 2 :=
  ⟨by decide, by decide⟩

/-- C5: contrary to the claimed drop, `processMessage` dispatches the
fallback literal `"🎤 語音訊息"` for a voice message whose text is empty and
whose transcription wait yields empty text — `rawBody = t || "🎤 語音訊息"`
has no drop branch and no caller opt-in exists (the repository's own test
mirror `resolveVoiceBody` returns `null` on empty, i.e. drop). -/
theorem C5_voice_fallback_dispatched :
    ((processMessage visitorCtx initialState voiceSeedItem).2.map
        (fun d => d.bodyForAgent)) = some "🎤 語音訊息"
    ∧ (processMessage visitorCtx initialState voiceSeedItem).2 ≠ none :=
  ⟨by decide, by decide⟩

/- ===================================================================
   C2: dedup — at most one dispatch per message id (within the caps)
   =================================================================== -/

theorem nodup_subset_length_le {l l' : List String} (h : l.Nodup) (hs : l ⊆ l') :
    l.length ≤ l'.length := by
  have h1 : l.toFinset.card = l.length := List.toFinset_card_of_nodup h
  have h2 : l.toFinset ⊆ l'.toFinset := by
    intro a ha
    rw [List.mem_toFinset] at ha ⊢
    exact hs ha
  have h3 := Finset.card_le_card h2
  have h4 : l'.toFinset.card ≤ l'.length := l'.toFinset_card_le
  omega

theorem crossAccountDedup_dup (msgId : String) (now : Int) (m : List (String × Int))
    (h : m.any (fun p => p.1 == msgId) = true) :
    crossAccountDedup msgId now m = (false, m) := by
  unfold crossAccountDedup
  rw [if_pos h]

theorem crossAccountDedup_new (msgId : String) (now : Int) (m : List (String × Int))
    (h : m.any (fun p => p.1 == msgId) = false)
    (hlen : m.length < CROSS_ACCOUNT_DEDUP_CAP) :
    crossAccountDedup msgId now m = (true, (msgId, now) :: m) := by
  unfold crossAccountDedup
  rw [if_neg (by simp [h])]
  simp only []
  rw [if_neg (by simp; omega)]

theorem mem_crossKeys_iff_any (st : PipelineState) (m : String) :
    (st.cross.any (fun p => p.1 == m) = true) ↔ m ∈ crossKeys st := by
  simp [crossKeys, List.any_eq_true, List.mem_map]

theorem pm_dispatch_msgId (ctx : MonitorCtx) (st : PipelineState) (item : InboundItem)
    (d : Dispatch) (h : (processMessage ctx st item).2 = some d) :
    d.messageId = itemMsgId item := by
  obtain ⟨raw, b, hp, hd⟩ := processMessage_dispatch_shape ctx st item
    (processMessage ctx st item).1 d (by rw [← h])
  subst hd
  simp [mkDispatch, itemMsgId, hp]

theorem pm_cross_step (ctx : MonitorCtx) (st : PipelineState) (item : InboundItem)
    (S : List String) (hinv : CrossInv st S) (hS : S.length ≤ CROSS_ACCOUNT_DEDUP_CAP)
    (hid : ∀ m, itemMsgId item = some m → m ∈ S) :
    CrossInv (processMessage ctx st item).1 S
    ∧ (∀ m, m ∈ crossKeys st → m ∈ crossKeys (processMessage ctx st item).1)
    ∧ (∀ m, itemMsgId item = some m → m ∈ crossKeys st →
        (processMessage ctx st item).2 = none)
    ∧ (∀ m d, itemMsgId item = some m → (processMessage ctx st item).2 = some d →
        m ∈ crossKeys (processMessage ctx st item).1) := by
  match hp : item.payload with
  | none =>
    simp only [processMessage, hp]
    refine ⟨hinv, fun m hm => hm, fun m hm _ => by trivial, fun m d hm hd => ?_⟩
    simp [itemMsgId, hp] at hm
  | some raw =>
    have hmid : itemMsgId item = raw.message_id := by simp [itemMsgId, hp]
    simp only [processMessage, hp]
    by_cases he : isEcho (raw.payload.bind (fun n => n.via)) (raw.author_id.getD "")
        ctx.botUserId = true
    · rw [if_pos he]
      exact ⟨hinv, fun m hm => hm, fun m _ _ => by trivial, fun m d _ hd => by simp at hd⟩
    · rw [if_neg he]
      match hms : raw.message_id with
      | none =>
        simp only []
        refine ⟨hinv, fun m hm => hm, fun m hm => ?_, fun m d hm hd => ?_⟩
        · rw [hmid, hms] at hm; simp at hm
        · rw [hmid, hms] at hm; simp at hm
      | some msgId =>
        simp only []
        by_cases hdup : st.cross.any (fun p => p.1 == msgId) = true
        · rw [crossAccountDedup_dup msgId item.now st.cross hdup]
          simp only [Bool.not_false, if_pos]
          refine ⟨?_, fun m hm => hm, fun m _ _ => by trivial, fun m d _ hd => by simp at hd⟩
          exact hinv
        · have hnotmem : msgId ∉ crossKeys st := by
            rw [← mem_crossKeys_iff_any] at *
            simpa using hdup
          have hmemS : msgId ∈ S := hid msgId (by rw [hmid, hms])
          have hlen : st.cross.length < CROSS_ACCOUNT_DEDUP_CAP := by
            have hnodup2 : (msgId :: crossKeys st).Nodup :=
              List.nodup_cons.mpr ⟨hnotmem, hinv.1⟩
            have hsub2 : (msgId :: crossKeys st) ⊆ S := by
              intro a ha
              rcases List.mem_cons.mp ha with h1 | h1
              · subst h1; exact hmemS
              · exact hinv.2 h1
            have := nodup_subset_length_le hnodup2 hsub2
            have hkl : (crossKeys st).length = st.cross.length := by
              simp [crossKeys]
            simp only [List.length_cons] at this
            omega
          rw [crossAccountDedup_new msgId item.now st.cross
            (Bool.not_eq_true _ ▸ Bool.of_not_eq_true hdup) hlen]
          simp only [Bool.not_true, Bool.false_eq_true, if_false]
          have hkeys : ∀ (stx : PipelineState), stx.cross = (msgId, item.now) :: st.cross →
              crossKeys stx = msgId :: crossKeys st := by
            intro stx hx
            simp [crossKeys, hx]
          have hinv' : ((msgId : String) :: crossKeys st).Nodup ∧
              ((msgId : String) :: crossKeys st) ⊆ S := by
            refine ⟨List.nodup_cons.mpr ⟨hnotmem, hinv.1⟩, ?_⟩
            intro a ha
            rcases List.mem_cons.mp ha with h1 | h1
            · subst h1; exact hmemS
            · exact hinv.2 h1
          by_cases hproc : (markProcessed msgId
              (st.processed ctx.account.accountId)).1 = true
          · simp only [hproc, Bool.not_true, Bool.false_eq_true, if_false]
            constructor
            · constructor
              · rw [hkeys _ rfl]; exact hinv'.1
              · rw [hkeys _ rfl]; exact hinv'.2
            constructor
            · intro m hm
              rw [hkeys _ rfl]
              exact List.mem_cons_of_mem _ hm
            constructor
            · intro m hm hmem
              rw [hmid, hms] at hm
              exact absurd (Option.some.inj hm ▸ hmem) hnotmem
            · intro m d hm hd
              rw [hkeys _ rfl]
              rw [hmid, hms] at hm
              rw [← Option.some.inj hm]
              exact List.mem_cons_self _ _
          · simp only [hproc, Bool.not_false, if_true]
            constructor
            · constructor
              · rw [hkeys _ rfl]; exact hinv'.1
              · rw [hkeys _ rfl]; exact hinv'.2
            constructor
            · intro m hm
              rw [hkeys _ rfl]
              exact List.mem_cons_of_mem _ hm
            constructor
            · intro m hm hmem
              rw [hmid, hms] at hm
              exact absurd (Option.some.inj hm ▸ hmem) hnotmem
            · intro m d hm hd
              rw [hkeys _ rfl]
              rw [hmid, hms] at hm
              rw [← Option.some.inj hm]
              exact List.mem_cons_self _ _

theorem countDisp_cons_none (m : String) (x : MonitorCtx × InboundItem)
    (rs : List ((MonitorCtx × InboundItem) × Option Dispatch)) :
    countDisp m ((x, none) :: rs) = countDisp m rs := by
  simp [countDisp]

theorem countDisp_cons_some (m : String) (x : MonitorCtx × InboundItem) (d : Dispatch)
    (rs : List ((MonitorCtx × InboundItem) × Option Dispatch)) :
    countDisp m ((x, some d) :: rs)
      = (if d.messageId == some m then 1 else 0) + countDisp m rs := by
  by_cases h : (d.messageId == some m) = true
  · simp [countDisp, List.filter_cons, h]
    omega
  · simp only [countDisp, List.filterMap_cons]
    rw [List.filter_cons_of_neg (by simpa using h)]
    simp [h]

theorem runPipeline_dedup (S : List String) (hS : S.length ≤ CROSS_ACCOUNT_DEDUP_CAP) :
    ∀ items st, CrossInv st S → (∀ m ∈ itemsMsgIds items, m ∈ S) →
      (∀ m, m ∈ crossKeys st → countDisp m (runPipeline st items).2 = 0)
      ∧ (∀ m, countDisp m (runPipeline st items).2 ≤ 1) := by
  intro items
  induction items with
  | nil =>
    intro st _ _
    exact ⟨fun m _ => by simp [runPipeline, countDisp],
           fun m => by simp [runPipeline, countDisp]⟩
  | cons x rest ih =>
    intro st hinv hids
    have hid1 : ∀ m, itemMsgId x.2 = some m → m ∈ S := by
      intro m hm
      refine hids m ?_
      simp only [itemsMsgIds, List.filterMap_cons, hm]
      exact List.mem_cons_self _ _
    obtain ⟨hinv', hmono, hblocked, hclaimed⟩ := pm_cross_step x.1 st x.2 S hinv hS hid1
    have hids' : ∀ m ∈ itemsMsgIds rest, m ∈ S := by
      intro m hm
      refine hids m ?_
      simp only [itemsMsgIds, List.filterMap_cons]
      match hx : itemMsgId x.2 with
      | none => simpa [itemsMsgIds] using hm
      | some v => exact List.mem_cons_of_mem _ (by simpa [itemsMsgIds] using hm)
    obtain ⟨ihz, ihle⟩ := ih (processMessage x.1 st x.2).1 hinv' hids'
    have hrun : (runPipeline st (x :: rest)).2
        = (x, (processMessage x.1 st x.2).2)
          :: (runPipeline (processMessage x.1 st x.2).1 rest).2 := by
      simp [runPipeline]
    constructor
    · intro m hm
      rw [hrun]
      match hr : (processMessage x.1 st x.2).2 with
      | none =>
        rw [countDisp_cons_none]
        exact ihz m (hmono m hm)
      | some d =>
        rw [countDisp_cons_some]
        have hdm := pm_dispatch_msgId x.1 st x.2 d hr
        have hne : (d.messageId == some m) = false := by
          by_cases hq : (d.messageId == some m) = true
          · exfalso
            have : itemMsgId x.2 = some m := by rw [← hdm]; exact beq_iff_eq.mp hq
            have := hblocked m this hm
            rw [this] at hr
            simp at hr
          · simpa using hq
        rw [hne]
        simp only [Bool.false_eq_true, if_false, Nat.zero_add]
        exact ihz m (hmono m hm)
    · intro m
      rw [hrun]
      match hr : (processMessage x.1 st x.2).2 with
      | none =>
        rw [countDisp_cons_none]
        exact ihle m
      | some d =>
        rw [countDisp_cons_some]
        by_cases hq : (d.messageId == some m) = true
        · have hdm := pm_dispatch_msgId x.1 st x.2 d hr
          have hmm : itemMsgId x.2 = some m := by rw [← hdm]; exact beq_iff_eq.mp hq
          have hmem := hclaimed m d hmm hr
          have := ihz m hmem
          rw [hq, this]
          simp
        · rw [(by simpa using hq : (d.messageId == some m) = false)]
          simp only [Bool.false_eq_true, if_false, Nat.zero_add]
          exact ihle m

/-- C2 (amended): as long as a trace carries at most
`CROSS_ACCOUNT_DEDUP_CAP = 2000` distinct message ids — so that the shared
cross-account map never reaches its cap and evicts — every `messageId` is
dispatched to the agent at most once across the whole process, and hence at
most once per account.  (Beyond the caps, the per-account 20 % batch
eviction and the cross-account five-minute prune can let an old id through
again; see the counterexample.) -/
theorem C2_dedup_at_most_once_amended (items : List (MonitorCtx × InboundItem))
    (hN : (itemsMsgIds items).dedup.length ≤ CROSS_ACCOUNT_DEDUP_CAP) :
    ∀ m : String, countDisp m (runPipeline initialState items).2 ≤ 1
      ∧ ∀ a : String, countDispAcct a m (runPipeline initialState items).2
          ≤ countDisp m (runPipeline initialState items).2 := by
  have hinv : CrossInv initialState (itemsMsgIds items).dedup := by
    constructor
    · simp [crossKeys, initialState]
    · simp [crossKeys, initialState]
  have hids : ∀ m ∈ itemsMsgIds items, m ∈ (itemsMsgIds items).dedup := by
    intro m hm
    exact List.mem_dedup.mpr hm
  obtain ⟨_, hle⟩ := runPipeline_dedup (itemsMsgIds items).dedup hN items
    initialState hinv hids
  intro m
  refine ⟨hle m, ?_⟩
  intro a
  unfold countDisp countDispAcct
  refine List.Sublist.length_le ?_
  refine List.Sublist.filter _ ?_
  refine List.Sublist.filterMap _ ?_
  exact List.filter_sublist _

/-- C2 amended witness: the same id arriving twice yields one dispatch. -/
theorem C2_dedup_at_most_once_amended_witness :
    countDisp "m1" (runPipeline initialState
      [(ownerSeedCtx, ownerSeedItem), (ownerSeedCtx, ownerSeedItem)]).2 ≤ 1 :=
  (C2_dedup_at_most_once_amended
    [(ownerSeedCtx, ownerSeedItem), (ownerSeedCtx, ownerSeedItem)] (by decide) "m1").1

theorem uid_inj {i j : Nat} (h : uid i = uid j) : i = j := by
  have := congrArg (fun s => s.toList.length) h
  simpa [uid] using this

theorem uid_ne_z (i : Nat) : uid i ≠ "z" := by
  intro h
  have hlen := congrArg (fun s => s.toList.length) h
  simp [uid] at hlen
  subst hlen
  exact absurd h (by decide)

theorem pm_dm_dup (st : PipelineState) (id sender : String) (now : Int)
    (hs : (sender == "bot-9") = false)
    (hdup : st.cross.any (fun p => p.1 == id) = true) :
    processMessage visitorCtx st (dmItem id sender now) = (st, none) := by
  have hecho : isEcho ((dmRaw id sender).payload.bind (fun n => n.via))
      ((dmRaw id sender).author_id.getD "") visitorCtx.botUserId = false := by
    simp [dmRaw, isEcho, visitorCtx, VIA_TAG, hs]
  simp only [processMessage, dmItem]
  rw [hecho]
  simp only [Bool.false_eq_true, if_false]
  rw [show (dmRaw id sender).message_id = some id from rfl]
  simp only []
  rw [crossAccountDedup_dup id now st.cross hdup]
  simp only [Bool.not_false, if_pos]

theorem pm_dm_new (st : PipelineState) (id sender : String) (now : Int)
    (hs : (sender == "bot-9") = false) (hs2 : (sender != "") = true)
    (hdup : st.cross.any (fun p => p.1 == id) = false)
    (hpdup : (st.processed "default").any (fun x => x == id) = false) :
    (processMessage visitorCtx st (dmItem id sender now)).1.cross
        = (crossAccountDedup id now st.cross).2
    ∧ (processMessage visitorCtx st (dmItem id sender now)).1.processed "default"
        = (markProcessed id (st.processed "default")).2
    ∧ (processMessage visitorCtx st (dmItem id sender now)).1.senders "default"
        = (isLimited RATE_LIMIT_MAX RATE_LIMIT_WINDOW_MS (st.senders "default") sender now).2
    ∧ (processMessage visitorCtx st (dmItem id sender now)).2
        = (if (isLimited RATE_LIMIT_MAX RATE_LIMIT_WINDOW_MS (st.senders "default") sender now).1
           then none
           else some (mkDispatch visitorCtx (dmRaw id sender) (dmItem id sender now) "hi")) := by
  have hecho : isEcho ((dmRaw id sender).payload.bind (fun n => n.via))
      ((dmRaw id sender).author_id.getD "") visitorCtx.botUserId = false := by
    simp [dmRaw, isEcho, visitorCtx, VIA_TAG, hs]
  have hc1 : (crossAccountDedup id now st.cross).1 = true := by
    unfold crossAccountDedup
    rw [if_neg (by simp [hdup])]
    by_cases hl : CROSS_ACCOUNT_DEDUP_CAP < ((id, now) :: st.cross).length
    · simp only [hl, if_pos]
    · simp only [hl, if_false]
  have hp1 : (markProcessed id (st.processed "default")).1 = true := by
    unfold markProcessed
    rw [if_neg (by simp [hpdup])]
    by_cases hl : DEDUP_CAP < (id :: st.processed "default").length
    · simp only [hl, if_pos]
    · simp only [hl, if_false]
  have hrest : processRest visitorCtx
      (st.senders "default") (st.histories "default") (dmRaw id sender)
      (dmItem id sender now)
      = ((isLimited RATE_LIMIT_MAX RATE_LIMIT_WINDOW_MS (st.senders "default") sender now).2,
         st.histories "default",
         (if (isLimited RATE_LIMIT_MAX RATE_LIMIT_WINDOW_MS (st.senders "default") sender now).1
          then none
          else some (mkDispatch visitorCtx (dmRaw id sender) (dmItem id sender now) "hi"))) := by
    have hgate : accessGateOk visitorCtx.account (dmItem id sender now).isGroupChannel
        ((dmRaw id sender).author_id.getD "") = true := by
      simp [accessGateOk, visitorCtx, dmItem, dmRaw]
    simp only [processRest]
    rw [show (dmItem id sender now).now = now from rfl]
    rw [show (dmRaw id sender).author_id.getD "" = sender from rfl] at hgate ⊢
    rw [hgate]
    simp only [Bool.not_true, Bool.false_eq_true, if_false]
    rw [show (visitorCtx.account : AccountCfg) = { accountId := "default" } from rfl]
    rw [hs2]
    simp only [if_pos]
    by_cases hrl : (isLimited RATE_LIMIT_MAX RATE_LIMIT_WINDOW_MS (st.senders "default")
        sender now).1 = true
    · rw [hrl]
      simp only [if_pos]
    · rw [(by simpa using hrl :
        (isLimited RATE_LIMIT_MAX RATE_LIMIT_WINDOW_MS (st.senders "default")
          sender now).1 = false)]
      simp only [Bool.false_eq_true, if_false]
      have hbody : buildBody (((dmRaw id sender).payload.bind (fun n => n.content_type)).getD "text")
          ((dmRaw id sender).payload.bind (fun n => n.text)) (dmRaw id sender).message_id
          (dmItem id sender now).transcription (dmItem id sender now).extraMediaUrls.length
          = "hi" := rfl
      rw [hbody]
      simp only [(by decide : (("hi" : String) == "") = false), Bool.false_eq_true, if_false]
      rw [show (dmItem id sender now).isGroupChannel = false from rfl]
      simp only [Bool.false_and, Bool.false_eq_true, if_false]
      unfold finishDispatchBody
      rw [show ((dmRaw id sender).reply_to.bind (fun r => r.text_preview)).getD "" = "" from rfl]
      simp only [(by decide : ((("" : String) != "")) = false), Bool.false_eq_true, if_false]
      rw [show (dmItem id sender now).isGroupChannel = false from rfl]
      simp only [Bool.false_and, Bool.false_eq_true, if_false]
  simp only [processMessage, dmItem]
  rw [hecho]
  simp only [Bool.false_eq_true, if_false]
  rw [show (dmRaw id sender).message_id = some id from rfl]
  simp only []
  rw [hc1]
  simp only [Bool.not_true, Bool.false_eq_true, if_false]
  rw [show (visitorCtx.account : AccountCfg).accountId = "default" from rfl]
  rw [hp1]
  simp only [Bool.not_true, Bool.false_eq_true, if_false]
  refine ⟨trivial, ?_, ?_, ?_⟩
  · simp only [if_pos]
  · simp only [if_pos]
    exact congrArg (fun p => p.1) hrest
  · exact congrArg (fun p => p.2.2) hrest

theorem runPipeline_cons (st : PipelineState) (x : MonitorCtx × InboundItem)
    (rest : List (MonitorCtx × InboundItem)) :
    runPipeline st (x :: rest)
      = ((runPipeline (processMessage x.1 st x.2).1 rest).1,
         (x, (processMessage x.1 st x.2).2)
           :: (runPipeline (processMessage x.1 st x.2).1 rest).2) := rfl

theorem runPipeline_append (st : PipelineState) (l1 l2 : List (MonitorCtx × InboundItem)) :
    runPipeline st (l1 ++ l2)
      = ((runPipeline (runPipeline st l1).1 l2).1,
         (runPipeline st l1).2 ++ (runPipeline (runPipeline st l1).1 l2).2) := by
  induction l1 generalizing st with
  | nil => rfl
  | cons x rest ih =>
    rw [show (x :: rest) ++ l2 = x :: (rest ++ l2) from rfl, runPipeline_cons, ih,
      runPipeline_cons]
    rfl

theorem countDisp_append (m : String)
    (r1 r2 : List ((MonitorCtx × InboundItem) × Option Dispatch)) :
    countDisp m (r1 ++ r2) = countDisp m r1 + countDisp m r2 := by
  simp [countDisp, List.filterMap_append, List.filter_append]

theorem countDisp_zero_of_msgIds (m : String) (items : List (MonitorCtx × InboundItem))
    (st : PipelineState) (h : ∀ x ∈ items, ¬ itemMsgId x.2 = some m) :
    countDisp m (runPipeline st items).2 = 0 := by
  induction items generalizing st with
  | nil => rfl
  | cons x rest ih =>
    rw [runPipeline_cons]
    match hr : (processMessage x.1 st x.2).2 with
    | none =>
      rw [show (((runPipeline (processMessage x.1 st x.2).1 rest).1,
          (x, (none : Option Dispatch))
            :: (runPipeline (processMessage x.1 st x.2).1 rest).2)).2
          = (x, (none : Option Dispatch))
            :: (runPipeline (processMessage x.1 st x.2).1 rest).2 from rfl,
        countDisp_cons_none]
      exact ih _ (fun y hy => h y (List.mem_cons_of_mem _ hy))
    | some d =>
      rw [show (((runPipeline (processMessage x.1 st x.2).1 rest).1,
          (x, some d)
            :: (runPipeline (processMessage x.1 st x.2).1 rest).2)).2
          = (x, some d)
            :: (runPipeline (processMessage x.1 st x.2).1 rest).2 from rfl,
        countDisp_cons_some]
      have hdm := pm_dispatch_msgId x.1 st x.2 d hr
      have hne : (d.messageId == some m) = false := by
        rw [hdm]
        exact beq_eq_false_iff_ne.mpr (h x (List.mem_cons_self _ _))
      rw [hne]
      simpa using ih _ (fun y hy => h y (List.mem_cons_of_mem _ hy))

theorem fillerCross_succ (n : Nat) :
    fillerCross (n+1) = (uid (n+1), (300001 : Int)) :: fillerCross n := by
  simp [fillerCross, List.range_succ]

theorem fillerCross_length (n : Nat) : (fillerCross n).length = n := by
  simp [fillerCross]

theorem fillerCross_mem {n : Nat} {x : String × Int} (hx : x ∈ fillerCross n) :
    ∃ i, i < n ∧ x = (uid (i+1), (300001 : Int)) := by
  simp only [fillerCross, List.mem_map, List.mem_reverse, List.mem_range] at hx
  obtain ⟨i, hi, rfl⟩ := hx
  exact ⟨i, hi, rfl⟩

theorem fillerEvents_succ (n : Nat) :
    fillerEvents (n+1) = fillerEvents n ++ [(visitorCtx, fillerItem n)] := by
  simp [fillerEvents, List.range_succ]

theorem fillerEvents_msgId {n : Nat} {x : MonitorCtx × InboundItem}
    (hx : x ∈ fillerEvents n) : ∃ i, i < n ∧ itemMsgId x.2 = some (uid (i+1)) := by
  simp only [fillerEvents, List.mem_map, List.mem_range] at hx
  obtain ⟨i, hi, rfl⟩ := hx
  exact ⟨i, hi, rfl⟩

theorem runPipeline_fillerEvents (n : Nat) :
    (runPipeline st1z (fillerEvents n)).1 = cexSt n := by
  induction n with
  | zero => rfl
  | succ k ih =>
    rw [fillerEvents_succ, runPipeline_append, ih]
    rfl

theorem pm_preserves_other (ctx : MonitorCtx) (st : PipelineState) (item : InboundItem)
    (a : String) (ha : ¬ a = ctx.account.accountId) :
    (processMessage ctx st item).1.processed a = st.processed a
    ∧ (processMessage ctx st item).1.senders a = st.senders a := by
  unfold processMessage
  match hp : item.payload with
  | none => exact ⟨rfl, rfl⟩
  | some raw =>
    simp only []
    repeat' split
    all_goals simp [ha]

set_option maxRecDepth 4000 in
theorem markProcessed_mem {msgId x : String} {l : List String}
    (hx : x ∈ (markProcessed msgId l).2) : x = msgId ∨ x ∈ l := by
  unfold markProcessed at hx
  split at hx
  · exact Or.inr hx
  · simp only [] at hx
    split at hx
    · have hx2 : x ∈ (msgId :: l).take ((msgId :: l).length - 200) := hx
      have := List.mem_of_mem_take hx2
      rcases List.mem_cons.mp this with h | h
      · exact Or.inl h
      · exact Or.inr h
    · rcases List.mem_cons.mp hx with h | h
      · exact Or.inl h
      · exact Or.inr h

theorem crossAccountDedup_prune (msgId : String) (now : Int) (m : List (String × Int))
    (h : m.any (fun p => p.1 == msgId) = false)
    (hlen : CROSS_ACCOUNT_DEDUP_CAP ≤ m.length) :
    crossAccountDedup msgId now m
      = (true, ((msgId, now) :: m).filter (fun p => !decide (p.2 < now - 300000))) := by
  unfold crossAccountDedup
  rw [if_neg (by simp [h])]
  simp only []
  rw [if_pos (by simp only [List.length_cons]; omega)]

theorem pm_dm_new2 (st : PipelineState) (id sender : String) (now : Int)
    (hs : (sender == "bot-9") = false) (hs2 : (sender != "") = true)
    (hdup : st.cross.any (fun p => p.1 == id) = false)
    (hpdup : (st.processed "acct2").any (fun x => x == id) = false) :
    (processMessage crossCtx st (dmItem id sender now)).1.cross
        = (crossAccountDedup id now st.cross).2
    ∧ (processMessage crossCtx st (dmItem id sender now)).1.processed "acct2"
        = (markProcessed id (st.processed "acct2")).2
    ∧ (processMessage crossCtx st (dmItem id sender now)).1.senders "acct2"
        = (isLimited RATE_LIMIT_MAX RATE_LIMIT_WINDOW_MS (st.senders "acct2") sender now).2
    ∧ (processMessage crossCtx st (dmItem id sender now)).2
        = (if (isLimited RATE_LIMIT_MAX RATE_LIMIT_WINDOW_MS (st.senders "acct2") sender now).1
           then none
           else some (mkDispatch crossCtx (dmRaw id sender) (dmItem id sender now) "hi")) := by
  have hecho : isEcho ((dmRaw id sender).payload.bind (fun n => n.via))
      ((dmRaw id sender).author_id.getD "") crossCtx.botUserId = false := by
    simp [dmRaw, isEcho, crossCtx, VIA_TAG, hs]
  have hc1 : (crossAccountDedup id now st.cross).1 = true := by
    unfold crossAccountDedup
    rw [if_neg (by simp [hdup])]
    by_cases hl : CROSS_ACCOUNT_DEDUP_CAP < ((id, now) :: st.cross).length
    · simp only [hl, if_pos]
    · simp only [hl, if_false]
  have hp1 : (markProcessed id (st.processed "acct2")).1 = true := by
    unfold markProcessed
    rw [if_neg (by simp [hpdup])]
    by_cases hl : DEDUP_CAP < (id :: st.processed "acct2").length
    · simp only [hl, if_pos]
    · simp only [hl, if_false]
  have hrest : processRest crossCtx
      (st.senders "acct2") (st.histories "acct2") (dmRaw id sender)
      (dmItem id sender now)
      = ((isLimited RATE_LIMIT_MAX RATE_LIMIT_WINDOW_MS (st.senders "acct2") sender now).2,
         st.histories "acct2",
         (if (isLimited RATE_LIMIT_MAX RATE_LIMIT_WINDOW_MS (st.senders "acct2") sender now).1
          then none
          else some (mkDispatch crossCtx (dmRaw id sender) (dmItem id sender now) "hi"))) := by
    have hgate : accessGateOk crossCtx.account (dmItem id sender now).isGroupChannel
        ((dmRaw id sender).author_id.getD "") = true := by
      simp [accessGateOk, crossCtx, dmItem, dmRaw]
    simp only [processRest]
    rw [show (dmItem id sender now).now = now from rfl]
    rw [show (dmRaw id sender).author_id.getD "" = sender from rfl] at hgate ⊢
    rw [hgate]
    simp only [Bool.not_true, Bool.false_eq_true, if_false]
    rw [show (crossCtx.account : AccountCfg) = { accountId := "acct2" } from rfl]
    rw [hs2]
    simp only [if_pos]
    by_cases hrl : (isLimited RATE_LIMIT_MAX RATE_LIMIT_WINDOW_MS (st.senders "acct2")
        sender now).1 = true
    · rw [hrl]
      simp only [if_pos]
    · rw [(by simpa using hrl :
        (isLimited RATE_LIMIT_MAX RATE_LIMIT_WINDOW_MS (st.senders "acct2")
          sender now).1 = false)]
      simp only [Bool.false_eq_true, if_false]
      have hbody : buildBody (((dmRaw id sender).payload.bind (fun n => n.content_type)).getD "text")
          ((dmRaw id sender).payload.bind (fun n => n.text)) (dmRaw id sender).message_id
          (dmItem id sender now).transcription (dmItem id sender now).extraMediaUrls.length
          = "hi" := rfl
      rw [hbody]
      simp only [(by decide : (("hi" : String) == "") = false), Bool.false_eq_true, if_false]
      rw [show (dmItem id sender now).isGroupChannel = false from rfl]
      simp only [Bool.false_and, Bool.false_eq_true, if_false]
      unfold finishDispatchBody
      rw [show ((dmRaw id sender).reply_to.bind (fun r => r.text_preview)).getD "" = "" from rfl]
      simp only [(by decide : ((("" : String) != "")) = false), Bool.false_eq_true, if_false]
      rw [show (dmItem id sender now).isGroupChannel = false from rfl]
      simp only [Bool.false_and, Bool.false_eq_true, if_false]
  simp only [processMessage, dmItem]
  rw [hecho]
  simp only [Bool.false_eq_true, if_false]
  rw [show (dmRaw id sender).message_id = some id from rfl]
  simp only []
  rw [hc1]
  simp only [Bool.not_true, Bool.false_eq_true, if_false]
  rw [show (crossCtx.account : AccountCfg).accountId = "acct2" from rfl]
  rw [hp1]
  simp only [Bool.not_true, Bool.false_eq_true, if_false]
  refine ⟨trivial, ?_, ?_, ?_⟩
  · simp only [if_pos]
  · simp only [if_pos]
    exact congrArg (fun p => p.1) hrest
  · exact congrArg (fun p => p.2.2) hrest

theorem cexInv_zero : CexInv 0 := by
  refine ⟨by decide, ?_,
    ((pm_preserves_other visitorCtx initialState zItem0 "acct2" (by decide)).1.trans rfl),
    ((pm_preserves_other visitorCtx initialState zItem0 "acct2" (by decide)).2.trans rfl)⟩
  intro x hx
  rw [show (cexSt 0).processed "default" = ["z"] from by decide] at hx
  exact Or.inl (List.mem_singleton.mp hx)

theorem cexAnyCross (n k : Nat) (hcross : (cexSt n).cross = fillerCross n ++ [("z", (0 : Int))])
    (hk : n < k) : ((cexSt n).cross.any (fun p => p.1 == uid k)) = false := by
  rw [hcross]
  rw [List.any_eq_false]
  intro p hp
  rcases List.mem_append.mp hp with h | h
  · obtain ⟨i, hi, rfl⟩ := fillerCross_mem h
    simp only [beq_iff_eq]
    intro he
    have := uid_inj he
    omega
  · rw [List.mem_singleton.mp h]
    simp only [beq_iff_eq]
    intro he
    exact uid_ne_z k he.symm

theorem cexAnyProc (n k : Nat)
    (hproc : ∀ x ∈ (cexSt n).processed "default", x = "z" ∨ ∃ i, 1 ≤ i ∧ i ≤ n ∧ x = uid i)
    (hk : n < k) : (((cexSt n).processed "default").any (fun x => x == uid k)) = false := by
  rw [List.any_eq_false]
  intro x hx
  simp only [beq_iff_eq]
  intro he
  rcases hproc x hx with h1 | ⟨i, hi1, hi2, rfl⟩
  · exact uid_ne_z k (h1 ▸ he).symm
  · have := uid_inj he
    omega

theorem cexInv_step (n : Nat) (hn : n ≤ 1998) (ih : CexInv n) : CexInv (n+1) := by
  obtain ⟨hcross, hproc, hpa, hsa⟩ := ih
  have hdup := cexAnyCross n (n+1) hcross (by omega)
  have hpdup := cexAnyProc n (n+1) hproc (by omega)
  have h := pm_dm_new (cexSt n) (uid (n+1)) "filler" 300001 rfl rfl hdup hpdup
  refine ⟨?_, ?_, ?_, ?_⟩
  · rw [show (cexSt (n+1)).cross
        = (crossAccountDedup (uid (n+1)) 300001 (cexSt n).cross).2 from h.1]
    rw [hcross]
    rw [crossAccountDedup_new _ _ _ (hcross ▸ hdup)
      (by rw [List.length_append, fillerCross_length]; simp [CROSS_ACCOUNT_DEDUP_CAP]; omega)]
    rw [fillerCross_succ]
    rfl
  · intro x hx
    have hx' : x ∈ (markProcessed (uid (n+1)) ((cexSt n).processed "default")).2 := by
      rw [← h.2.1]
      exact hx
    rcases markProcessed_mem hx' with h1 | h1
    · exact Or.inr ⟨n+1, by omega, le_refl _, h1⟩
    · rcases hproc x h1 with h2 | ⟨i, hi1, hi2, rfl⟩
      · exact Or.inl h2
      · exact Or.inr ⟨i, hi1, by omega, rfl⟩
  · exact ((pm_preserves_other visitorCtx (cexSt n) (fillerItem n) "acct2"
      (by decide)).1).trans hpa
  · exact ((pm_preserves_other visitorCtx (cexSt n) (fillerItem n) "acct2"
      (by decide)).2).trans hsa

theorem cexInv_all : ∀ n, n ≤ 1999 → CexInv n := by
  intro n
  induction n with
  | zero => exact fun _ => cexInv_zero
  | succ k ih => exact fun hk => cexInv_step k (by omega) (ih (by omega))

theorem cexInv_prune (n : Nat) (hn : n = 1999) (ih : CexInv n) :
    (cexSt (n+1)).cross = fillerCross (n+1)
    ∧ (cexSt (n+1)).processed "acct2" = []
    ∧ (cexSt (n+1)).senders "acct2" = rlEmpty := by
  obtain ⟨hcross, hproc, hpa, hsa⟩ := ih
  have hdup := cexAnyCross n (n+1) hcross (by omega)
  have hpdup := cexAnyProc n (n+1) hproc (by omega)
  have h := pm_dm_new (cexSt n) (uid (n+1)) "filler" 300001 rfl rfl hdup hpdup
  refine ⟨?_, ?_, ?_⟩
  · rw [show (cexSt (n+1)).cross
        = (crossAccountDedup (uid (n+1)) 300001 (cexSt n).cross).2 from h.1]
    rw [hcross]
    rw [crossAccountDedup_prune _ _ _ (hcross ▸ hdup)
      (by simp [CROSS_ACCOUNT_DEDUP_CAP, fillerCross_length]; omega)]
    show ((uid (n+1), (300001 : Int)) :: (fillerCross n ++ [("z", (0 : Int))])).filter
        (fun p => !decide (p.2 < (300001 : Int) - 300000)) = fillerCross (n+1)
    rw [List.filter_cons_of_pos
      (by show (!decide ((300001 : Int) < (300001 : Int) - 300000)) = true; decide)]
    rw [List.filter_append]
    rw [List.filter_eq_self.mpr ?hall]
    case hall =>
      intro p hp
      obtain ⟨i, hi, rfl⟩ := fillerCross_mem hp
      show (!decide ((300001 : Int) < (300001 : Int) - 300000)) = true
      decide
    rw [show ([("z", (0 : Int))]).filter (fun p => !decide (p.2 < (300001 : Int) - 300000))
        = [] from by decide]
    rw [fillerCross_succ, List.append_nil]
  · exact ((pm_preserves_other visitorCtx (cexSt n) (fillerItem n) "acct2"
      (by decide)).1).trans hpa
  · exact ((pm_preserves_other visitorCtx (cexSt n) (fillerItem n) "acct2"
      (by decide)).2).trans hsa

theorem cexSt2000 :
    (cexSt 2000).cross = fillerCross 2000
    ∧ (cexSt 2000).processed "acct2" = []
    ∧ (cexSt 2000).senders "acct2" = rlEmpty := by
  have e : cexSt 2000 = cexSt (1999 + 1) := congrArg cexSt (by norm_num)
  have ef : fillerCross 2000 = fillerCross (1999 + 1) := congrArg fillerCross (by norm_num)
  rw [e, ef]
  exact cexInv_prune 1999 rfl (cexInv_all 1999 (by omega))

theorem runPipeline_single (st : PipelineState) (c : MonitorCtx) (it : InboundItem) :
    (runPipeline st [(c, it)]).2 = [((c, it), (processMessage c st it).2)] := rfl

theorem cexFinal :
    (processMessage crossCtx (cexSt 2000) zItem1).2
      = some (mkDispatch crossCtx (dmRaw "z" "alice") (dmItem "z" "alice" 300001) "hi") := by
  obtain ⟨hcross, hpa, hsa⟩ := cexSt2000
  have hdup : ((cexSt 2000).cross.any (fun p => p.1 == "z")) = false := by
    rw [hcross, List.any_eq_false]
    intro p hp
    obtain ⟨i, hi, rfl⟩ := fillerCross_mem hp
    simp only [beq_iff_eq]
    exact uid_ne_z (i+1)
  have hpdup : (((cexSt 2000).processed "acct2").any (fun x => x == "z")) = false := by
    rw [hpa]
    rfl
  have h := pm_dm_new2 (cexSt 2000) "z" "alice" 300001 rfl rfl hdup hpdup
  rw [show zItem1 = dmItem "z" "alice" 300001 from rfl, h.2.2.2]
  rw [hsa]
  rfl

theorem cexHead :
    (processMessage visitorCtx initialState zItem0).2
      = some (mkDispatch visitorCtx (dmRaw "z" "alice") (dmItem "z" "alice" 0) "hi") := by
  have h := pm_dm_new initialState "z" "alice" 0 rfl rfl rfl rfl
  rw [show zItem0 = dmItem "z" "alice" 0 from rfl, h.2.2.2]
  rfl

/-- C2: counterexample to unconditional cross-process dedup.  In the trace
`cexTrace`, message id `"z"` is claimed at time 0, then 2000 fresh ids at
time 300001 push the cross-account map over its 2000-entry cap, whose prune
discards the five-minute-old `"z"` entry; a second account then claims
`"z"` again and the pipeline dispatches it a second time. -/
theorem C2_counterexample :
    countDisp "z" (runPipeline initialState cexTrace).2 = 2 := by
  have hstep0 : runPipeline initialState cexTrace
      = ((runPipeline st1z (fillerEvents 2000 ++ [(crossCtx, zItem1)])).1,
         ((visitorCtx, zItem0), (processMessage visitorCtx initialState zItem0).2)
           :: (runPipeline st1z (fillerEvents 2000 ++ [(crossCtx, zItem1)])).2) :=
    runPipeline_cons initialState (visitorCtx, zItem0)
      (fillerEvents 2000 ++ [(crossCtx, zItem1)])
  have h2 : (runPipeline initialState cexTrace).2
      = ((visitorCtx, zItem0), (processMessage visitorCtx initialState zItem0).2)
        :: (runPipeline st1z (fillerEvents 2000 ++ [(crossCtx, zItem1)])).2 := by
    rw [hstep0]
  rw [h2, cexHead, countDisp_cons_some,
    if_pos (show ((mkDispatch visitorCtx (dmRaw "z" "alice") (dmItem "z" "alice" 0)
      "hi").messageId == some "z") = true from by decide)]
  have h3 : (runPipeline st1z (fillerEvents 2000 ++ [(crossCtx, zItem1)])).2
      = (runPipeline st1z (fillerEvents 2000)).2
        ++ (runPipeline (runPipeline st1z (fillerEvents 2000)).1 [(crossCtx, zItem1)]).2 := by
    rw [runPipeline_append]
  rw [h3, countDisp_append, runPipeline_fillerEvents]
  rw [countDisp_zero_of_msgIds "z" (fillerEvents 2000) st1z ?hf]
  case hf =>
    intro x hx
    obtain ⟨i, hi, hm⟩ := fillerEvents_msgId hx
    rw [hm]
    intro he
    exact uid_ne_z (i+1) (Option.some.inj he)
  rw [runPipeline_single, cexFinal, countDisp_cons_some,
    if_pos (show ((mkDispatch crossCtx (dmRaw "z" "alice") (dmItem "z" "alice" 300001)
      "hi").messageId == some "z") = true from by decide)]
  rfl
